import Mathlib

/-!
# BDIR Patch Protocol v1 — verification development

Shallow embedding of the core of the `bdir-engine` repository: the text
canonicalization and hashing layer (`crates/bdir-core`), the document model,
the patch validator (`crates/bdir-patch/src/validate.rs`), and the patch
applier (`crates/bdir-patch/src/apply.rs`), together with proofs about the
protocol properties stated for them.

Modelling conventions:
* Rust `String` / `&str` values are `List Char`. The Rust code scans by byte
  offsets, but every scan position it produces lies on a UTF-8 character
  boundary (needles are themselves valid strings and UTF-8 is
  self-synchronizing), so the character-level embedding computes the same
  match positions, counts and splices.
* Rust `u16` / `u32` / `usize` values are `Nat`; no arithmetic in the
  embedded code can overflow at the sizes involved (indices, counts).
* Fallible code (`Result`, panics) is `Except` with string errors, as in the
  source.
* Loops whose bound is not syntactic are given an explicit fuel argument
  that provably exceeds the number of iterations the source loop performs,
  so that every definition is structurally recursive and kernel-evaluable.

The tree under `src/` mixes several generations of the same modules (the
repository's own design notes say so): `bdir-core/src/hash.rs` contains only
`canonicalize_text` and the xxh64 helpers, while `model.rs`, `validate.rs`
and `apply.rs` import `hash_hex`, `hash_canon_hex` and `normalize_nfc` from
it; `apply.rs` handles only four of the seven `OpType` variants and reads a
pre-RFC `content` field that the schema no longer has.  Definitions for the
missing pieces are modelled from the specification and carry a doc comment
starting with `Modelled from the spec:`.  Everything else is translated
directly from the source files.
-/

deriving instance DecidableEq for Except

namespace BDIR

/-- Rust strings, embedded at character level. -/
abbrev Str := List Char

/-! ## Character helpers -/

/-- Whitespace recognised by Rust `str::trim` (restricted to the ASCII
whitespace actually occurring in the embedded data; algorithm names and
hashes are ASCII). -/
def isWsChar (c : Char) : Bool :=
  c = ' ' || c = '\t' || c = '\n' || c = '\r'

/-- Trailing whitespace stripped by `canonicalize_text`: space and tab only
(`apply.rs` / `hash.rs`: `trim_end_matches(|c| c == ' ' || c == '\t')`). -/
def isSpaceTab (c : Char) : Bool :=
  c = ' ' || c = '\t'

/-- ASCII lowercasing, modelling Rust `str::to_lowercase` on the ASCII range
(the only inputs it is applied to are algorithm names). -/
def lowerChar (c : Char) : Char :=
  if 'A' ≤ c ∧ c ≤ 'Z' then Char.ofNat (c.toNat + 32) else c

/-- Rust `str::trim`. -/
def trimStr (s : Str) : Str :=
  ((s.dropWhile isWsChar).reverse.dropWhile isWsChar).reverse

/-- Rust `str::to_lowercase`. -/
def lowerStr (s : Str) : Str :=
  s.map lowerChar

/-- `s.trim().to_lowercase()`, the normalization applied to algorithm
names in `model.rs` and `validate.rs`. -/
def trimLower (s : Str) : Str :=
  lowerStr (trimStr s)

/-- Strip trailing spaces and tabs
(`hash.rs`: `trim_end_matches(|c: char| c == ' ' || c == '\t')`). -/
def trimTrailWs (s : Str) : Str :=
  (s.reverse.dropWhile isSpaceTab).reverse

/-! ## Unicode NFC (modelled) -/

/-- U+0301 COMBINING ACUTE ACCENT. -/
def accCh : Char := Char.ofNat 0x301

/-- U+00E9 LATIN SMALL LETTER E WITH ACUTE. -/
def eAcute : Char := Char.ofNat 0xE9

/-- Modelled from the spec: `bdir_core::hash::normalize_nfc`, Unicode NFC
normalization.  `validate.rs` imports this function from `bdir-core`, but the
`hash.rs` present under `src/` predates it; the real implementation delegates
to the external `unicode_normalization` crate.  The full Unicode composition
table is out of scope; this model implements the fragment exercised by the
repository's data and by these claims — the canonical composition
U+0065 U+0301 → U+00E9 — and leaves every other character sequence unchanged
(all other embedded inputs are already NFC). -/
def normalize_nfc : Str → Str
  | [] => []
  | c :: rest =>
    match rest with
    | [] => [c]
    | c2 :: rest2 =>
      if c = 'e' ∧ c2 = accCh then eAcute :: normalize_nfc rest2
      else c :: normalize_nfc (c2 :: rest2)

/-! ## Text canonicalization (`bdir-core/src/hash.rs`) -/

/-- First step of `canonicalize_text`:
`input.replace("\r\n", "\n")` (left-to-right, non-overlapping). -/
def replaceCrlf : Str → Str
  | [] => []
  | '\r' :: '\n' :: rest => '\n' :: replaceCrlf rest
  | c :: rest => c :: replaceCrlf rest

/-- Second step: `.replace('\r', "\n")`. -/
def crToLf (s : Str) : Str :=
  s.map (fun c => if c = '\r' then '\n' else c)

/-- `str::split_inclusive('\n')`: split into segments, each keeping its
terminating `'\n'`; the last segment may lack one.  The empty string yields
no segments. -/
def splitInclusive : Str → List Str
  | [] => []
  | c :: rest =>
    if c = '\n' then ['\n'] :: splitInclusive rest
    else
      match splitInclusive rest with
      | [] => [[c]]
      | seg :: segs => (c :: seg) :: segs

/-- Loop body of `canonicalize_text`: strip the optional final `'\n'`, trim
trailing spaces/tabs, restore the `'\n'` when it was present. -/
def canonLine (seg : Str) : Str :=
  match seg.reverse with
  | '\n' :: restRev => trimTrailWs restRev.reverse ++ ['\n']
  | _ => trimTrailWs seg

/-- `bdir_core::hash::canonicalize_text`: normalize CRLF and bare CR to LF,
then strip trailing spaces/tabs from each line, preserving the presence of
each line's terminating LF.  (The variant in `src/` performs no Unicode
normalization.) -/
def canonicalize_text (s : Str) : Str :=
  ((splitInclusive (crToLf (replaceCrlf s))).map canonLine).flatten

/-! ## Hashing (modelled digests) -/

/-- Lowercase hex digit. -/
def hexDigit (n : Nat) : Char :=
  if n < 10 then Char.ofNat (48 + n) else Char.ofNat (87 + n)

/-- Fixed-width big-endian lowercase hex rendering of `n mod 16^w`. -/
def toHexFixed : Nat → Nat → Str
  | 0, _ => []
  | w + 1, n => toHexFixed w (n / 16) ++ [hexDigit (n % 16)]

/-- Modelled from the spec: the digest underlying the registered hash
algorithms.  The real digests (`xxh3_64` from the `xxhash-rust` crate,
SHA-256 from `sha2`) are external library code; the spec pins only that each
algorithm is a deterministic function of the input bytes rendered as
fixed-width lowercase hex.  No claim in this development depends on concrete
digest values, so a simple deterministic polynomial fold stands in. -/
def digest (s : Str) : Nat :=
  s.foldl (fun a c => a * 131 + c.toNat + 1) 7

/-- Modelled from the spec: `bdir_core::hash::hash_hex` — the registry query
and hex digest for the closed algorithm set `{xxh64, sha256}` (16 and 64
lowercase hex characters respectively); `none` for unknown algorithms.
The function is imported by `model.rs`, `validate.rs` and `apply.rs` but
missing from the `hash.rs` present under `src/`. -/
def hash_hex (algo : Str) (s : Str) : Option Str :=
  if algo = ("xxh64").data then some (toHexFixed 16 (digest s))
  else if algo = ("sha256").data then some (toHexFixed 64 (digest s))
  else none

/-- Modelled from the spec: `bdir_core::hash::hash_canon_hex` — hash of the
canonicalized text. -/
def hash_canon_hex (algo : Str) (s : Str) : Option Str :=
  hash_hex algo (canonicalize_text s)

/-! ## Substring scanning -/

/-- Boolean list prefix test (Rust `str::starts_with` over characters). -/
def isPre : Str → Str → Bool
  | [], _ => true
  | _ :: _, [] => false
  | a :: as_, b :: bs => a = b && isPre as_ bs

/-- Fuel-bounded scanning loop of `count_non_overlapping` (`validate.rs`):
count occurrences left to right, jumping past each match.  The haystack shrinks
by at least one character per step, so `fuel = haystack.length` is never
exhausted. -/
def countNOF (needle : Str) : Nat → Str → Nat
  | 0, _ => 0
  | _ + 1, [] => 0
  | fuel + 1, c :: rest =>
    if isPre needle (c :: rest) then 1 + countNOF needle fuel ((c :: rest).drop needle.length)
    else countNOF needle fuel rest

/-- `validate.rs::count_non_overlapping`: count non-overlapping occurrences
of `needle` in `haystack`, both NFC-normalized first; an empty needle counts
zero. -/
def count_non_overlapping (haystack needle : Str) : Nat :=
  let h := normalize_nfc haystack
  let n := normalize_nfc needle
  if n = [] then 0 else countNOF n h.length h

/-- Fuel-bounded loop of `replace_nth_non_overlapping` (`apply.rs`): splice
`after` over the `n`-th non-overlapping match (1-indexed), `none` when it
does not exist. -/
def replaceNthF (needle after : Str) : Nat → Nat → Str → Option Str
  | _, _, [] => none
  | 0, _, _ :: _ => none
  | fuel + 1, n, c :: rest =>
    if isPre needle (c :: rest) then
      if n = 1 then some (after ++ (c :: rest).drop needle.length)
      else
        (replaceNthF needle after fuel (n - 1) ((c :: rest).drop needle.length)).map
          (fun t => needle ++ t)
    else (replaceNthF needle after fuel n rest).map (fun t => c :: t)

/-- `apply.rs::replace_nth_non_overlapping`. -/
def replace_nth_non_overlapping (haystack before after : Str) (n : Nat) : Option Str :=
  if before = [] ∨ n = 0 then none
  else replaceNthF before after haystack.length n haystack

/-- `apply.rs::delete_nth_non_overlapping`. -/
def delete_nth_non_overlapping (haystack before : Str) (n : Nat) : Option Str :=
  replace_nth_non_overlapping haystack before [] n

/-- Fuel-bounded loop of `replace_first`. -/
def replaceFirstF (needle after : Str) : Nat → Str → Str
  | _, [] => []
  | 0, s => s
  | fuel + 1, c :: rest =>
    if isPre needle (c :: rest) then after ++ (c :: rest).drop needle.length
    else c :: replaceFirstF needle after fuel rest

/-- `apply.rs::replace_first`: replace only the first occurrence; an empty
needle (or no match) leaves the haystack unchanged. -/
def replace_first (haystack needle replacement : Str) : Str :=
  if needle = [] then haystack else replaceFirstF needle replacement haystack.length haystack

/-- `apply.rs::delete_first`. -/
def delete_first (haystack needle : Str) : Str :=
  replace_first haystack needle []

/-- Fuel-bounded loop of Rust `str::replace` (replace all non-overlapping
occurrences, left to right). -/
def replaceAllF (needle after : Str) : Nat → Str → Str
  | _, [] => []
  | 0, s => s
  | fuel + 1, c :: rest =>
    if isPre needle (c :: rest) then after ++ replaceAllF needle after fuel ((c :: rest).drop needle.length)
    else c :: replaceAllF needle after fuel rest

/-- Rust `str::replace(before, "")` as used by the legacy `delete`/`all` arm
(`apply.rs`); an empty needle is never passed (the validator rejects empty
`before`), and is modelled as the identity. -/
def replaceAll (haystack needle replacement : Str) : Str :=
  if needle = [] then haystack else replaceAllF needle replacement haystack.length haystack

/-! ## Data model (`bdir-core/src/model.rs`, `bdir-patch/src/schema.rs`,
`bdir-editpacket/src/schema.rs`) -/

/-- `bdir_core::model::Block`. -/
structure Block where
  id : Str
  kind_code : Nat
  text_hash : Str
  text : Str
deriving DecidableEq, Repr

/-- `bdir_core::model::Document`. -/
structure Document where
  page_hash : Str
  hash_algorithm : Str
  blocks : List Block
deriving DecidableEq, Repr

/-- `bdir_patch::schema::OpType`. -/
inductive OpType where
  | replace
  | delete
  | insertAfter
  | insertBefore
  | replaceBlock
  | deleteBlock
  | suggest
deriving DecidableEq, Repr

/-- `bdir_patch::schema::DeleteOccurrence`. -/
inductive DeleteOccurrence where
  | first
  | all
deriving DecidableEq, Repr

/-- `bdir_patch::schema::Occurrence` (`index` is the canonical 1-indexed u32
selector; `legacy` the delete-only string spellings). -/
inductive Occurrence where
  | index (n : Nat)
  | legacy (d : DeleteOccurrence)
deriving DecidableEq, Repr

/-- `bdir_patch::schema::PatchOpV1`.  The JSON aliases (`blockId`,
`newBlockId`, `kindCode`, `content`) deserialize into these same fields. -/
structure PatchOpV1 where
  op : OpType
  block_id : Str
  before : Option Str := none
  after : Option Str := none
  occurrence : Option Occurrence := none
  new_block_id : Option Str := none
  kind_code : Option Nat := none
  text : Option Str := none
  message : Option Str := none
  rationale : Option Str := none
  severity : Option Str := none
deriving DecidableEq, Repr

/-- `bdir_patch::schema::PatchV1`. -/
structure PatchV1 where
  v : Nat
  h : Option Str := none
  ha : Option Str := none
  ops : List PatchOpV1
deriving DecidableEq, Repr

/-- `bdir_editpacket::schema::BlockTupleV1`: `[blockId, kindCode, textHash, text]`. -/
abbrev BlockTupleV1 := Str × Nat × Str × Str

/-- `bdir_editpacket::schema::EditPacketV1` (`ha` defaults to `"sha256"` at
deserialization time, so it is a plain field here). -/
structure EditPacketV1 where
  v : Nat
  tid : Option Str := none
  h : Str
  ha : Str
  b : List BlockTupleV1
deriving DecidableEq, Repr

/-! ## Diagnostics (`bdir-patch/src/diagnostics.rs`)

The enum under `src/crates/bdir-patch/src/diagnostics.rs` lacks the
`ConflictingOperations` variant that `validate.rs` constructs; the embedding
carries the superset actually used by the validator. -/

/-- `bdir_patch::diagnostics::DiagnosticCode`. -/
inductive DiagnosticCode where
  | unsupportedPatchVersion
  | unsupportedEditPacketVersion
  | patchPageHashMismatch
  | patchPageHashMissing
  | hashAlgorithmMismatch
  | duplicateBlockId
  | unknownBlockId
  | missingField
  | unexpectedField
  | beforeEmpty
  | beforeTooShort
  | beforeNotFound
  | beforeAmbiguous
  | occurrenceOutOfRange
  | kindCodeDisallowed
  | kindCodeOutOfRange
  | contentEmpty
  | messageEmpty
  | conflictingOperations
deriving DecidableEq, Repr

/-- `bdir_patch::diagnostics::ValidationDiagnostic`. -/
structure ValidationDiagnostic where
  code : DiagnosticCode
  path : Option Str := none
  op_index : Option Nat := none
  op : Option OpType := none
  block_id : Option Str := none
  message : Str
deriving DecidableEq, Repr

/-- `bdir_patch::diagnostics::ValidationError`. -/
structure ValidationError where
  diagnostics : List ValidationDiagnostic
deriving DecidableEq, Repr

/-- `ValidationError::single`. -/
def ValidationError.single (d : ValidationDiagnostic) : ValidationError :=
  ⟨[d]⟩

/-- `ValidationError::legacy_message`: the first diagnostic's message (or a
generic fallback). -/
def ValidationError.legacy_message (e : ValidationError) : Str :=
  match e.diagnostics.head? with
  | some d => d.message
  | none => ("validation failed").data

/-- `validate.rs::err_root`. -/
def err_root (code : DiagnosticCode) (path : Str) (message : Str) : ValidationError :=
  ValidationError.single
    { code := code, path := some path, op_index := none, op := none, block_id := none
      message := message }

/-- `validate.rs::err_op`. -/
def err_op (code : DiagnosticCode) (op_index : Nat) (op : OpType) (block_id : Option Str)
    (path : Option Str) (message : Str) : ValidationError :=
  ValidationError.single
    { code := code, path := path, op_index := some op_index, op := some op
      block_id := block_id, message := message }

/-- Decimal rendering (Rust `Display` for integers). -/
def natStr (n : Nat) : Str :=
  Nat.toDigits 10 n

/-- The recurring `ops[{i}]` path/message fragment. -/
def opsIdx (i : Nat) : Str :=
  ("ops[").data ++ natStr i ++ ("]").data

/-! ## Validator options (`validate.rs`) -/

/-- `bdir_patch::validate::KindCodePolicy`. -/
structure KindCodePolicy where
  allow_ranges : List (Nat × Nat)
  allow_suggest_any : Bool
deriving DecidableEq, Repr

/-- `KindCodePolicy::default()`: ranges `[(0, 19)]`, `allow_suggest_any = true`. -/
def KindCodePolicy.default : KindCodePolicy :=
  { allow_ranges := [(0, 19)], allow_suggest_any := true }

/-- `KindCodePolicy::allows`. -/
def KindCodePolicy.allows (p : KindCodePolicy) (op : OpType) (kc : Nat) : Bool :=
  if op = OpType.suggest ∧ p.allow_suggest_any then true
  else p.allow_ranges.any (fun r => decide (r.1 ≤ kc ∧ kc ≤ r.2))

/-- `bdir_patch::validate::ValidateOptions`. -/
structure ValidateOptions where
  min_before_len : Nat
  strict_kind_code : Bool
  kind_code_policy : KindCodePolicy
  expected_page_hash : Option Str
  strict_page_hash_binding : Bool
deriving DecidableEq, Repr

/-- `ValidateOptions::default()`. -/
def ValidateOptions.default : ValidateOptions :=
  { min_before_len := 8
    strict_kind_code := false
    kind_code_policy := KindCodePolicy.default
    expected_page_hash := none
    strict_page_hash_binding := false }

/-! ## Validator (`bdir-patch/src/validate.rs`) -/

/-- A single-quote character, used when rebuilding the format strings of the
source diagnostics. -/
def sq : Str := [Char.ofNat 39]

/-- Quote a string the way the source format strings do. -/
def quoted (s : Str) : Str :=
  sq ++ s ++ sq

/-- Rust bool `Display`. -/
def boolStr (b : Bool) : Str :=
  if b then ("true").data else ("false").data

/-- The `"lo-hi"` range summary strings of `enforce_kind_code`. -/
def rangeStrs (rs : List (Nat × Nat)) : Str :=
  List.intercalate (",").data (rs.map (fun r => natStr r.1 ++ ("-").data ++ natStr r.2))

/-- `validate.rs::enforce_kind_code`. -/
def enforce_kind_code (i : Nat) (op : OpType) (block_id : Str) (kind_code : Nat)
    (opts : ValidateOptions) : Option ValidationError :=
  if ¬ opts.strict_kind_code then none
  else if opts.kind_code_policy.allows op kind_code then none
  else
    let summary :=
      if opts.kind_code_policy.allow_ranges = [] then ("allow_ranges=[]").data
      else
        ("allow_ranges=[").data ++ rangeStrs opts.kind_code_policy.allow_ranges ++
          ("], allow_suggest_any=").data ++ boolStr opts.kind_code_policy.allow_suggest_any
    some (err_op .kindCodeDisallowed i op (some block_id)
      (some (opsIdx i ++ (".block_id").data))
      (opsIdx i ++ (" targets kindCode ").data ++ natStr kind_code ++
        (", which is disallowed under strict kindCode policy (").data ++ summary ++ (")").data))

/-- `validate.rs::guard_before_diag`. -/
def guard_before_diag (op_index : Nat) (op : OpType) (block_id : Str) (before : Str)
    (min_before_len : Nat) : Option ValidationError :=
  let before_nfc := normalize_nfc before
  if trimStr before_nfc = [] then
    some (err_op .beforeEmpty op_index op (some block_id)
      (some (opsIdx op_index ++ (".before").data))
      (opsIdx op_index ++ (" before is empty").data))
  else if before_nfc.length < min_before_len then
    some (err_op .beforeTooShort op_index op (some block_id)
      (some (opsIdx op_index ++ (".before").data))
      (opsIdx op_index ++ (" before is too short (<").data ++ natStr min_before_len ++
        (" chars); likely ambiguous").data))
  else none

/-- `doc.blocks.iter().find(|b| b.id == op.block_id)`. -/
def findBlock (blocks : List Block) (bid : Str) : Option Block :=
  blocks.find? (fun b => decide (b.id = bid))

/-- Per-group opset of the conflict scan: the `(index, op type)` pairs of the
ops targeting `bid`, in op order (as built by the `HashMap` entry pushes). -/
def opsetFor (ops : List PatchOpV1) (bid : Str) : List (Nat × OpType) :=
  ops.enum.filterMap (fun p => if p.2.block_id = bid then some (p.1, p.2.op) else none)

/-- The two conflict rules applied to one `block_id` group
(`validate.rs`, RFC-0001 v1.1 conflict rejection). -/
def conflictCheckGroup (ops : List PatchOpV1) (bid : Str) : Option ValidationError :=
  let opset := opsetFor ops bid
  if opset.any (fun e => decide (e.2 = OpType.deleteBlock)) ∧ 1 < opset.length then
    let e := (opset.find? (fun e => decide (¬ e.2 = OpType.deleteBlock))).getD
      (opset.headD (0, OpType.deleteBlock))
    some (err_op .conflictingOperations e.1 e.2 (some bid)
      (some (opsIdx e.1 ++ (".op").data))
      (("conflicting operations for block_id ").data ++ quoted bid ++
        (" (delete_block cannot be combined with other ops)").data))
  else if opset.any (fun e => decide (e.2 = OpType.replaceBlock)) ∧
      opset.any (fun e => decide (e.2 = OpType.replace ∨ e.2 = OpType.delete)) then
    let e := (opset.find? (fun e => decide (e.2 = OpType.replace ∨ e.2 = OpType.delete))).getD
      (opset.headD (0, OpType.deleteBlock))
    some (err_op .conflictingOperations e.1 e.2 (some bid)
      (some (opsIdx e.1 ++ (".op").data))
      (("conflicting operations for block_id ").data ++ quoted bid ++
        (" (replace_block cannot be combined with substring replace/delete)").data))
  else none

/-- Distinct `block_id` keys in first-appearance order. -/
def dedupFirst : List Str → List Str
  | [] => []
  | k :: rest => k :: (dedupFirst rest).filter (fun x => decide (¬ x = k))

/-- The key set of the conflict scan.  The source stores the groups in a
`std::collections::HashMap` whose iteration order is unspecified (randomly
seeded per map); `conflictScan` therefore takes the iteration order as an
explicit argument, and the canonical entry point below fixes the
first-appearance order as one admissible choice. -/
def conflictKeys (ops : List PatchOpV1) : List Str :=
  dedupFirst (ops.map (·.block_id))

/-- The conflict scan loop over the groups, in the given key order. -/
def conflictScan (ops : List PatchOpV1) : List Str → Option ValidationError
  | [] => none
  | k :: ks =>
    match conflictCheckGroup ops k with
    | some e => some e
    | none => conflictScan ops ks

/-- The kind-specific per-op checks of `validate_patch_with_diagnostics`,
after the anchor block has been resolved and the strict kindCode gate
passed. -/
def checkOpKind (doc : Document) (opts : ValidateOptions) (i : Nat) (op : PatchOpV1)
    (blk : Block) : Option ValidationError :=
  match op.op with
  | .replace =>
    match op.before with
    | none => some (err_op .missingField i op.op (some op.block_id)
        (some (opsIdx i ++ (".before").data))
        (opsIdx i ++ (" (replace) missing before").data))
    | some bef =>
      match op.after with
      | none => some (err_op .missingField i op.op (some op.block_id)
          (some (opsIdx i ++ (".after").data))
          (opsIdx i ++ (" (replace) missing after").data))
      | some _ =>
        match guard_before_diag i op.op op.block_id bef opts.min_before_len with
        | some e => some e
        | none =>
          let mcount := count_non_overlapping blk.text bef
          if mcount = 0 then
            some (err_op .beforeNotFound i op.op (some op.block_id)
              (some (opsIdx i ++ (".before").data))
              (opsIdx i ++ (" (replace) before substring not found in block ").data ++
                quoted op.block_id))
          else
            match op.occurrence with
            | none =>
              if 1 < mcount then
                some (err_op .beforeAmbiguous i op.op (some op.block_id)
                  (some (opsIdx i ++ (".before").data))
                  (opsIdx i ++ (" (replace) before substring is ambiguous in block ").data ++
                    quoted op.block_id ++ (" (mcount ").data ++ natStr mcount ++
                    (" times); provide occurrence").data))
              else none
            | some (.index n) =>
              if n = 0 ∨ mcount < n then
                some (err_op .occurrenceOutOfRange i op.op (some op.block_id)
                  (some (opsIdx i ++ (".occurrence").data))
                  (opsIdx i ++ (" (replace) occurrence out of range for block ").data ++
                    quoted op.block_id ++ (" (occurrence=").data ++ natStr n ++
                    (", mcount=").data ++ natStr mcount ++ (")").data))
              else none
            | some (.legacy _) =>
              some (err_op .unexpectedField i op.op (some op.block_id)
                (some (opsIdx i ++ (".occurrence").data))
                (opsIdx i ++
                  (" (replace) invalid occurrence value (legacy string values are delete-only; use integer occurrence)").data))
  | .delete =>
    match op.before with
    | none => some (err_op .missingField i op.op (some op.block_id)
        (some (opsIdx i ++ (".before").data))
        (opsIdx i ++ (" (delete) missing before").data))
    | some bef =>
      let mcount := count_non_overlapping blk.text bef
      match guard_before_diag i op.op op.block_id bef opts.min_before_len with
      | some e => some e
      | none =>
        if mcount = 0 then
          some (err_op .beforeNotFound i op.op (some op.block_id)
            (some (opsIdx i ++ (".before").data))
            (opsIdx i ++ (" (delete) before substring not found in block ").data ++
              quoted op.block_id))
        else
          match op.occurrence with
          | none =>
            if 1 < mcount then
              some (err_op .beforeAmbiguous i op.op (some op.block_id)
                (some (opsIdx i ++ (".before").data))
                (opsIdx i ++ (" (delete) before substring is ambiguous in block ").data ++
                  quoted op.block_id ++ (" (mcount ").data ++ natStr mcount ++
                  (" times); provide occurrence").data))
            else none
          | some (.index n) =>
            if n = 0 ∨ mcount < n then
              some (err_op .occurrenceOutOfRange i op.op (some op.block_id)
                (some (opsIdx i ++ (".occurrence").data))
                (opsIdx i ++ (" (delete) occurrence out of range for block ").data ++
                  quoted op.block_id ++ (" (occurrence=").data ++ natStr n ++
                  (", mcount=").data ++ natStr mcount ++ (")").data))
            else none
          | some (.legacy _) => none
  | .insertAfter =>
    if op.occurrence.isSome then
      some (err_op .unexpectedField i op.op (some op.block_id)
        (some (opsIdx i ++ (".occurrence").data))
        (opsIdx i ++ (" (insert_after) unexpected occurrence (only valid for delete)").data))
    else if op.before.isSome then
      some (err_op .unexpectedField i op.op (some op.block_id)
        (some (opsIdx i ++ (".before").data))
        (opsIdx i ++ (" (insert_after) unexpected before (insert_after must not include before/after)").data))
    else if op.after.isSome then
      some (err_op .unexpectedField i op.op (some op.block_id)
        (some (opsIdx i ++ (".after").data))
        (opsIdx i ++ (" (insert_after) unexpected after (insert_after must not include before/after)").data))
    else if op.message.isSome then
      some (err_op .unexpectedField i op.op (some op.block_id)
        (some (opsIdx i ++ (".message").data))
        (opsIdx i ++ (" (insert_after) unexpected message (insert_after is mutating; use suggest instead)").data))
    else
      match op.new_block_id with
      | none => some (err_op .missingField i op.op (some op.block_id)
          (some (opsIdx i ++ (".new_block_id").data))
          (opsIdx i ++ (" (insert_after) missing new_block_id").data))
      | some nid =>
        if trimStr nid = [] then
          some (err_op .contentEmpty i op.op (some op.block_id)
            (some (opsIdx i ++ (".new_block_id").data))
            (opsIdx i ++ (" (insert_after) new_block_id is empty").data))
        else if doc.blocks.any (fun b => decide (b.id = nid)) then
          some (err_op .duplicateBlockId i op.op (some op.block_id)
            (some (opsIdx i ++ (".new_block_id").data))
            (opsIdx i ++ (" (insert_after) new_block_id ").data ++ quoted nid ++
              (" already exists").data))
        else
          match op.kind_code with
          | none => some (err_op .missingField i op.op (some op.block_id)
              (some (opsIdx i ++ (".kind_code").data))
              (opsIdx i ++ (" (insert_after) missing kind_code").data))
          | some _ =>
            match op.text with
            | none => some (err_op .missingField i op.op (some op.block_id)
                (some (opsIdx i ++ (".text").data))
                (opsIdx i ++ (" (insert_after) missing text").data))
            | some t =>
              if trimStr t = [] then
                some (err_op .contentEmpty i op.op (some op.block_id)
                  (some (opsIdx i ++ (".text").data))
                  (opsIdx i ++ (" (insert_after) text is empty").data))
              else none
  | .insertBefore =>
    if op.occurrence.isSome then
      some (err_op .unexpectedField i op.op (some op.block_id)
        (some (opsIdx i ++ (".occurrence").data))
        (opsIdx i ++ (" (insert_before) unexpected occurrence (only valid for delete)").data))
    else if op.before.isSome then
      some (err_op .unexpectedField i op.op (some op.block_id)
        (some (opsIdx i ++ (".before").data))
        (opsIdx i ++ (" (insert_before) unexpected before (insert_before must not include before/after)").data))
    else if op.after.isSome then
      some (err_op .unexpectedField i op.op (some op.block_id)
        (some (opsIdx i ++ (".after").data))
        (opsIdx i ++ (" (insert_before) unexpected after (insert_before must not include before/after)").data))
    else if op.message.isSome then
      some (err_op .unexpectedField i op.op (some op.block_id)
        (some (opsIdx i ++ (".message").data))
        (opsIdx i ++ (" (insert_before) unexpected message (insert_before is mutating; use suggest instead)").data))
    else
      match op.new_block_id with
      | none => some (err_op .missingField i op.op (some op.block_id)
          (some (opsIdx i ++ (".new_block_id").data))
          (opsIdx i ++ (" (insert_before) missing new_block_id").data))
      | some nid =>
        if trimStr nid = [] then
          some (err_op .contentEmpty i op.op (some op.block_id)
            (some (opsIdx i ++ (".new_block_id").data))
            (opsIdx i ++ (" (insert_before) new_block_id is empty").data))
        else if doc.blocks.any (fun b => decide (b.id = nid)) then
          some (err_op .duplicateBlockId i op.op (some op.block_id)
            (some (opsIdx i ++ (".new_block_id").data))
            (opsIdx i ++ (" (insert_before) new_block_id ").data ++ quoted nid ++
              (" already exists").data))
        else
          match op.kind_code with
          | none => some (err_op .missingField i op.op (some op.block_id)
              (some (opsIdx i ++ (".kind_code").data))
              (opsIdx i ++ (" (insert_before) missing kind_code").data))
          | some _ =>
            match op.text with
            | none => some (err_op .missingField i op.op (some op.block_id)
                (some (opsIdx i ++ (".text").data))
                (opsIdx i ++ (" (insert_before) missing text").data))
            | some t =>
              if trimStr t = [] then
                some (err_op .contentEmpty i op.op (some op.block_id)
                  (some (opsIdx i ++ (".text").data))
                  (opsIdx i ++ (" (insert_before) text is empty").data))
              else none
  | .replaceBlock =>
    if op.occurrence.isSome then
      some (err_op .unexpectedField i op.op (some op.block_id)
        (some (opsIdx i ++ (".occurrence").data))
        (opsIdx i ++ (" (replace_block) unexpected occurrence").data))
    else if op.before.isSome then
      some (err_op .unexpectedField i op.op (some op.block_id)
        (some (opsIdx i ++ (".before").data))
        (opsIdx i ++ (" (replace_block) unexpected before").data))
    else if op.after.isSome then
      some (err_op .unexpectedField i op.op (some op.block_id)
        (some (opsIdx i ++ (".after").data))
        (opsIdx i ++ (" (replace_block) unexpected after").data))
    else if op.new_block_id.isSome then
      some (err_op .unexpectedField i op.op (some op.block_id)
        (some (opsIdx i ++ (".new_block_id").data))
        (opsIdx i ++ (" (replace_block) unexpected new_block_id").data))
    else if op.message.isSome then
      some (err_op .unexpectedField i op.op (some op.block_id)
        (some (opsIdx i ++ (".message").data))
        (opsIdx i ++ (" (replace_block) unexpected message").data))
    else
      match op.text with
      | none => some (err_op .missingField i op.op (some op.block_id)
          (some (opsIdx i ++ (".text").data))
          (opsIdx i ++ (" (replace_block) missing text").data))
      | some t =>
        if trimStr t = [] then
          some (err_op .contentEmpty i op.op (some op.block_id)
            (some (opsIdx i ++ (".text").data))
            (opsIdx i ++ (" (replace_block) text is empty").data))
        else none
  | .deleteBlock =>
    if op.occurrence.isSome ∨ op.before.isSome ∨ op.after.isSome ∨ op.new_block_id.isSome ∨
        op.kind_code.isSome ∨ op.text.isSome ∨ op.message.isSome then
      some (err_op .unexpectedField i op.op (some op.block_id)
        (some (opsIdx i))
        (opsIdx i ++ (" (delete_block) contains fields that are not permitted").data))
    else none
  | .suggest =>
    if op.occurrence.isSome then
      some (err_op .unexpectedField i op.op (some op.block_id)
        (some (opsIdx i ++ (".occurrence").data))
        (opsIdx i ++ (" (suggest) unexpected occurrence (only valid for delete)").data))
    else if op.before.isSome then
      some (err_op .unexpectedField i op.op (some op.block_id)
        (some (opsIdx i ++ (".before").data))
        (opsIdx i ++ (" (suggest) unexpected before (suggest must not include before/after)").data))
    else if op.after.isSome then
      some (err_op .unexpectedField i op.op (some op.block_id)
        (some (opsIdx i ++ (".after").data))
        (opsIdx i ++ (" (suggest) unexpected after (suggest must not include before/after)").data))
    else if op.text.isSome ∨ op.new_block_id.isSome ∨ op.kind_code.isSome then
      some (err_op .unexpectedField i op.op (some op.block_id)
        (some (opsIdx i ++ (".text").data))
        (opsIdx i ++ (" (suggest) unexpected insert_after fields (suggest is non-mutating; use insert_after instead)").data))
    else
      match op.message with
      | none => some (err_op .missingField i op.op (some op.block_id)
          (some (opsIdx i ++ (".message").data))
          (opsIdx i ++ (" (suggest) missing message").data))
      | some msg =>
        if trimStr msg = [] then
          some (err_op .messageEmpty i op.op (some op.block_id)
            (some (opsIdx i ++ (".message").data))
            (opsIdx i ++ (" (suggest) message is empty").data))
        else none

/-- One iteration of the per-op loop: resolve the anchor, apply the strict
kindCode gate, then the kind-specific checks. -/
def checkOp (doc : Document) (opts : ValidateOptions) (i : Nat) (op : PatchOpV1) :
    Option ValidationError :=
  match findBlock doc.blocks op.block_id with
  | none => some (err_op .unknownBlockId i op.op (some op.block_id)
      (some (opsIdx i ++ (".block_id").data))
      (opsIdx i ++ (" references unknown block_id ").data ++ quoted op.block_id))
  | some blk =>
    match enforce_kind_code i op.op op.block_id blk.kind_code opts with
    | some e => some e
    | none => checkOpKind doc opts i op blk

/-- The per-op loop (`for (i, op) in patch.ops.iter().enumerate()`), fail
fast. -/
def checkOps (doc : Document) (opts : ValidateOptions) : Nat → List PatchOpV1 →
    Option ValidationError
  | _, [] => none
  | i, op :: rest =>
    match checkOp doc opts i op with
    | some e => some e
    | none => checkOps doc opts (i + 1) rest

/-- `validate.rs`: the strict page-hash binding gate. -/
def strictBindingCheck (patch : PatchV1) (opts : ValidateOptions) : Option ValidationError :=
  if opts.strict_page_hash_binding then
    match patch.h with
    | none => some (err_root .patchPageHashMissing ("h").data
        (("patch is missing required page hash binding (strict): include patch.h and patch.ha").data))
    | some _ =>
      if trimStr (patch.ha.getD []) = [] then
        some (err_root .missingField ("ha").data
          (("patch is missing required hash algorithm binding (strict): include patch.ha").data))
      else none
  else none

/-- `validate.rs`: resolution of the expected page hash from `patch.h` and
`opts.expected_page_hash`. -/
def resolveExpected (patch : PatchV1) (opts : ValidateOptions) :
    Except ValidationError Str :=
  match patch.h, opts.expected_page_hash with
  | some ph, some ex =>
    if ¬ ph = ex then
      .error (err_root .patchPageHashMismatch ("h").data
        (("patch page hash mismatch (patch.h=").data ++ quoted ph ++
          (" differs from expected_page_hash=").data ++ quoted ex ++ (")").data))
    else .ok ph
  | some ph, none => .ok ph
  | none, some ex => .ok ex
  | none, none =>
    .error (err_root .patchPageHashMissing ("h").data
      (("patch is missing required page hash binding: include patch.h or provide expected_page_hash").data))

/-- `validate.rs`: the hash-algorithm binding check (only when `patch.h` is
present). -/
def haCheck (doc : Document) (patch : PatchV1) : Option ValidationError :=
  if patch.h.isSome then
    match patch.ha with
    | none => none
    | some raw =>
      let pa := trimLower raw
      if pa = [] then
        some (err_root .missingField ("ha").data (("patch ha is empty").data))
      else if ¬ pa = trimLower doc.hash_algorithm then
        some (err_root .hashAlgorithmMismatch ("ha").data
          (("patch hash algorithm mismatch (patch.ha=").data ++ quoted raw ++
            (", doc.hash_algorithm=").data ++ quoted doc.hash_algorithm ++ (")").data))
      else none
  else none

/-- `validate.rs::validate_patch_with_diagnostics`, with the iteration order
of the conflict-scan `HashMap` made explicit (the source leaves it to the
randomly seeded `std` hasher). -/
def validateWithOrder (doc : Document) (patch : PatchV1) (opts : ValidateOptions)
    (order : List Str) : Except ValidationError Unit :=
  if patch.v = 1 then
    match strictBindingCheck patch opts with
    | some e => .error e
    | none =>
      match resolveExpected patch opts with
      | .error e => .error e
      | .ok expected =>
        match haCheck doc patch with
        | some e => .error e
        | none =>
          if doc.page_hash = expected then
            match conflictScan patch.ops order with
            | some e => .error e
            | none =>
              match checkOps doc opts 0 patch.ops with
              | some e => .error e
              | none => .ok ()
          else
            .error (err_root .patchPageHashMismatch ("h").data
              (("patch page hash mismatch (expected ").data ++ quoted expected ++
                (", got ").data ++ quoted doc.page_hash ++ (")").data))
  else
    .error (err_root .unsupportedPatchVersion ("v").data
      (("unsupported patch version ").data ++ natStr patch.v))

/-- `validate.rs::validate_patch_with_diagnostics`, with the group order
fixed to first appearance (one admissible `HashMap` iteration order). -/
def validate_patch_with_diagnostics (doc : Document) (patch : PatchV1)
    (opts : ValidateOptions) : Except ValidationError Unit :=
  validateWithOrder doc patch opts (conflictKeys patch.ops)

/-- `validate.rs::validate_patch_with_options`. -/
def validate_patch_with_options (doc : Document) (patch : PatchV1)
    (opts : ValidateOptions) : Except Str Unit :=
  (validate_patch_with_diagnostics doc patch opts).mapError ValidationError.legacy_message

/-- `validate.rs::validate_patch` (default options). -/
def validate_patch (doc : Document) (patch : PatchV1) : Except Str Unit :=
  validate_patch_with_options doc patch ValidateOptions.default

/-- The virtual Document an edit packet is lifted to
(`validate_patch_against_edit_packet_with_diagnostics`). -/
def liftPacket (packet : EditPacketV1) : Document :=
  { page_hash := packet.h
    hash_algorithm := packet.ha
    blocks := packet.b.map (fun t => { id := t.1, kind_code := t.2.1, text_hash := t.2.2.1, text := t.2.2.2 }) }

/-- `validate.rs::validate_patch_against_edit_packet_with_diagnostics`. -/
def validate_patch_against_edit_packet_with_diagnostics (packet : EditPacketV1)
    (patch : PatchV1) (opts : ValidateOptions) : Except ValidationError Unit :=
  if packet.v = 1 then
    let opts2 :=
      if ¬ opts.strict_page_hash_binding ∧ opts.expected_page_hash = none then
        { opts with expected_page_hash := some packet.h }
      else opts
    validate_patch_with_diagnostics (liftPacket packet) patch opts2
  else
    .error (err_root .unsupportedEditPacketVersion ("v").data
      (("unsupported edit packet version ").data ++ natStr packet.v))

/-! ## Hash recomputation (`bdir-core/src/model.rs`) -/

/-- The page-hash payload rows
`"{id}\t{kind_code}\t{text_hash}\n"` in block order. -/
def pagePayload (blocks : List Block) : Str :=
  (blocks.map (fun b => b.id ++ ['\t'] ++ natStr b.kind_code ++ ['\t'] ++ b.text_hash ++ ['\n'])).flatten

/-- `Document::normalize_hash_algorithm`: trim + lowercase the declared
algorithm, rejecting empty and unsupported names. -/
def normalize_hash_algorithm (d : Document) : Except Str Document :=
  let algo := trimLower d.hash_algorithm
  if algo = [] then .error ("hash_algorithm is empty").data
  else if (hash_hex algo []).isNone then
    .error (("unsupported hash_algorithm ").data ++ quoted algo)
  else .ok { d with hash_algorithm := algo }

/-- Body of the recompute loop: set a block's `text_hash` from its
canonicalized text under the given (already validated) algorithm.  The
source unwraps the hash with `.expect("supported algorithm")`, which cannot
fire because the algorithm was just validated; `getD []` is that never-taken
default. -/
def recomputeBlock (algo : Str) (b : Block) : Block :=
  { b with text_hash := (hash_canon_hex algo b.text).getD [] }

/-- `Document::try_recompute_hashes`: normalize the algorithm, recompute
every block `text_hash` from canonicalized text, then the `page_hash` over
the payload rows. -/
def try_recompute_hashes (d : Document) : Except Str Document :=
  match normalize_hash_algorithm d with
  | .error e => .error e
  | .ok d1 =>
    let algo := d1.hash_algorithm
    let blocks := d1.blocks.map (recomputeBlock algo)
    .ok { d1 with blocks := blocks, page_hash := (hash_hex algo (pagePayload blocks)).getD [] }

/-! ## Applier (`bdir-patch/src/apply.rs`)

The `apply.rs` under `src/` is a pre-RFC generation: its op match covers
only `Replace`, `Delete`, `InsertAfter` and `Suggest` (it does not compile
against the seven-variant `OpType` of the `schema.rs` in the same tree), it
reads the pre-RFC `content` payload (which the current schema deserializes
into the `text` field via a serde alias), and for `InsertAfter` it mints a
deterministic id and inherits the anchor kind instead of using the
patch-supplied `new_block_id` / `kind_code`.  `apply_patch_against_document`
below embeds that file as it stands; `apply_patch_against_document_rfc`
further down models the current-generation applier from the spec. -/

/-- Update the first block with the given id (`find_doc_block_index`
followed by an indexed update), failing like the source when the id is
unknown. -/
def updFirst (bid : Str) (f : Block → Except Str Block) : List Block → Except Str (List Block)
  | [] => .error (("unknown block_id ").data ++ quoted bid)
  | blk :: rest =>
    if blk.id = bid then
      match f blk with
      | .error e => .error e
      | .ok b2 => .ok (b2 :: rest)
    else
      match updFirst bid f rest with
      | .error e => .error e
      | .ok r => .ok (blk :: r)

/-- Insert a block immediately after the first block with the given id
(`Vec::insert(anchor_idx + 1, ..)`). -/
def insertAfterFirst (bid : Str) (nb : Block) : List Block → Except Str (List Block)
  | [] => .error (("unknown block_id ").data ++ quoted bid)
  | blk :: rest =>
    if blk.id = bid then .ok (blk :: nb :: rest)
    else
      match insertAfterFirst bid nb rest with
      | .error e => .error e
      | .ok r => .ok (blk :: r)

/-- Insert a block immediately before the first block with the given id. -/
def insertBeforeFirst (bid : Str) (nb : Block) : List Block → Except Str (List Block)
  | [] => .error (("unknown block_id ").data ++ quoted bid)
  | blk :: rest =>
    if blk.id = bid then .ok (nb :: blk :: rest)
    else
      match insertBeforeFirst bid nb rest with
      | .error e => .error e
      | .ok r => .ok (blk :: r)

/-- Remove the first block with the given id. -/
def removeFirstBlock (bid : Str) : List Block → Except Str (List Block)
  | [] => .error (("unknown block_id ").data ++ quoted bid)
  | blk :: rest =>
    if blk.id = bid then .ok rest
    else
      match removeFirstBlock bid rest with
      | .error e => .error e
      | .ok r => .ok (blk :: r)

/-- Loop of `apply.rs::make_insert_id_doc` (`for n in 2u32..`): first unused
`"{base}{n}"`.  The source loop is unbounded; at most `blocks.length`
candidates can be taken, so fuel `blocks.length + 1` always suffices and the
fuel-exhausted fallback (the source's unreachable trailing `base`) is never
returned. -/
def mkInsRec (blocks : List Block) (base : Str) : Nat → Nat → Str
  | 0, _ => base
  | fuel + 1, n =>
    let cand := base ++ natStr n
    if blocks.any (fun b => decide (b.id = cand)) then mkInsRec blocks base fuel (n + 1)
    else cand

/-- `apply.rs::make_insert_id_doc`: deterministic minted id
`"{anchor}_ins"`, or `"{anchor}_ins2"`, `"_ins3"`, … first unused. -/
def make_insert_id_doc (blocks : List Block) (anchor_id : Str) : Str :=
  let base := anchor_id ++ ("_ins").data
  if blocks.any (fun b => decide (b.id = base)) then mkInsRec blocks base (blocks.length + 1) 2
  else base

/-- The shared replace/delete substring arms of the appliers (identical text
transformations in the legacy source and in the spec). -/
def substrArm (op : PatchOpV1) (blocks : List Block) : Except Str (List Block) :=
  match op.op with
  | .replace =>
    match op.before with
    | none => .error ("ops replace missing before (should be validated)").data
    | some bef =>
      match op.after with
      | none => .error ("ops replace missing after (should be validated)").data
      | some aft =>
        updFirst op.block_id (fun blk =>
          match op.occurrence with
          | some (.index n) =>
            match replace_nth_non_overlapping blk.text bef aft n with
            | some t => .ok { blk with text := t }
            | none => .error (("replace occurrence out of range (block_id=").data ++
                quoted op.block_id ++ (", occurrence=").data ++ natStr n ++ (")").data)
          | some (.legacy _) =>
            .error ("replace occurrence must be an integer (legacy string values are delete-only)").data
          | none => .ok { blk with text := replace_first blk.text bef aft }) blocks
  | .delete =>
    match op.before with
    | none => .error ("ops delete missing before (should be validated)").data
    | some bef =>
      updFirst op.block_id (fun blk =>
        match op.occurrence with
        | some (.legacy .all) => .ok { blk with text := replaceAll blk.text bef [] }
        | some (.legacy .first) => .ok { blk with text := delete_first blk.text bef }
        | some (.index n) =>
          match delete_nth_non_overlapping blk.text bef n with
          | some t => .ok { blk with text := t }
          | none => .error (("delete occurrence out of range (block_id=").data ++
              quoted op.block_id ++ (", occurrence=").data ++ natStr n ++ (")").data)
        | none => .ok { blk with text := delete_first blk.text bef }) blocks
  | _ => .error ("substrArm applied to a non-substring op").data

/-- One op of the legacy applier in `src/crates/bdir-patch/src/apply.rs`
(`apply_patch_against_document`, lines 157–239).  The three op types the
source has no match arm for are mapped to an error value; no claim input
reaches them. -/
def applyOpLegacy (blocks : List Block) (op : PatchOpV1) : Except Str (List Block) :=
  match op.op with
  | .replace => substrArm op blocks
  | .delete => substrArm op blocks
  | .insertAfter =>
    match op.text with
    | none => .error ("ops insert_after missing content (should be validated)").data
    | some content =>
      match findBlock blocks op.block_id with
      | none => .error (("unknown block_id ").data ++ quoted op.block_id)
      | some anchor =>
        let new_id := make_insert_id_doc blocks op.block_id
        insertAfterFirst op.block_id
          { id := new_id, kind_code := anchor.kind_code, text_hash := [], text := content } blocks
  | .suggest => .ok blocks
  | _ => .error ("unsupported op type (src apply.rs has no match arm for this variant)").data

/-- The op loop of the appliers (`for op in &patch.ops`), fail fast. -/
def applyOpsWith (f : List Block → PatchOpV1 → Except Str (List Block)) :
    List Block → List PatchOpV1 → Except Str (List Block)
  | bs, [] => .ok bs
  | bs, op :: rest =>
    match f bs op with
    | .error e => .error e
    | .ok bs2 => applyOpsWith f bs2 rest

/-- `apply.rs::apply_patch_against_document` (the legacy generation under
`src/`): validate first with default options, execute the ops in order, then
recompute all hashes.  The source calls the panicking `recompute_hashes`
wrapper; the embedding surfaces the (validated-away) unsupported-algorithm
panic as an error value. -/
def apply_patch_against_document (doc : Document) (patch : PatchV1) : Except Str Document :=
  match validate_patch doc patch with
  | .error e => .error e
  | .ok _ =>
    match applyOpsWith applyOpLegacy doc.blocks patch.ops with
    | .error e => .error e
    | .ok bs => try_recompute_hashes { doc with blocks := bs }

/-- Modelled from the spec: one op of the current-generation document
applier (spec §4.4 Structural edits).  The `apply.rs` under `src/` predates
`insert_before` / `replace_block` / `delete_block` and the RFC
`insert_after` fields, so those arms are modelled from the spec:
`insert_after` / `insert_before` insert a new block whose id is the
patch-supplied `new_block_id` and whose `kind_code` and `text` come from the
op (`textHash` left unset, recomputed at the end); `replace_block`
overwrites the anchor text, preserving id and kind; `delete_block` removes
the anchor block from the ordered list; `suggest` does not mutate.  The
substring arms are the same as the legacy ones. -/
def applyOpRfc (blocks : List Block) (op : PatchOpV1) : Except Str (List Block) :=
  match op.op with
  | .replace => substrArm op blocks
  | .delete => substrArm op blocks
  | .insertAfter =>
    match op.new_block_id, op.kind_code, op.text with
    | some nid, some kc, some t =>
      insertAfterFirst op.block_id { id := nid, kind_code := kc, text_hash := [], text := t } blocks
    | _, _, _ => .error ("ops insert_after missing required fields (should be validated)").data
  | .insertBefore =>
    match op.new_block_id, op.kind_code, op.text with
    | some nid, some kc, some t =>
      insertBeforeFirst op.block_id { id := nid, kind_code := kc, text_hash := [], text := t } blocks
    | _, _, _ => .error ("ops insert_before missing required fields (should be validated)").data
  | .replaceBlock =>
    match op.text with
    | none => .error ("ops replace_block missing text (should be validated)").data
    | some t => updFirst op.block_id (fun blk => .ok { blk with text := t }) blocks
  | .deleteBlock => removeFirstBlock op.block_id blocks
  | .suggest => .ok blocks

/-- Modelled from the spec: the current-generation
`apply_patch_against_document` (spec §4.4): run the validator first (default
options), execute the accepted ops in their given order, each observing the
state produced by its predecessors, then re-establish every `textHash` and
the `pageHash`. -/
def apply_patch_against_document_rfc (doc : Document) (patch : PatchV1) : Except Str Document :=
  match validate_patch doc patch with
  | .error e => .error e
  | .ok _ =>
    match applyOpsWith applyOpRfc doc.blocks patch.ops with
    | .error e => .error e
    | .ok bs => try_recompute_hashes { doc with blocks := bs }

/-- `Except.isOk` as a plain Bool projection. -/
def exceptOk {ε α : Type} : Except ε α → Bool
  | .ok _ => true
  | .error _ => false

/-- The code of the first diagnostic of a validation result, if any. -/
def diagCode (r : Except ValidationError Unit) : Option DiagnosticCode :=
  match r with
  | .ok _ => none
  | .error e => (e.diagnostics.head?).map (·.code)

/-! ## Auxiliary predicates used by the theorems -/

/-- The block ids of a block list, in order. -/
def idsOf (bs : List Block) : List Str :=
  bs.map (·.id)

/-- How many blocks of `bs` carry the id `b`. -/
def countB (b : Str) (bs : List Block) : Nat :=
  (idsOf bs).count b

/-- No space or tab immediately precedes a line feed or the end of the
string: the normal form established by per-line trailing-whitespace
trimming. -/
def cleanLines : Str → Bool
  | [] => true
  | [c] => !(isSpaceTab c)
  | c :: c2 :: rest => (!(isSpaceTab c && decide (c2 = '\n'))) && cleanLines (c2 :: rest)

/-- No diagnostic of the error carries the `kind_code_out_of_range` code. -/
def NoKindCodeOutOfRange (e : ValidationError) : Prop :=
  ∀ d ∈ e.diagnostics, ¬ d.code = DiagnosticCode.kindCodeOutOfRange

/-- Last-character normal form: the final character, when present, is not a
space or tab. -/
def lastNonWs (v : Str) : Prop :=
  ∀ h : ¬ v = [], isSpaceTab (v.getLast h) = false

/-- Shape of the segments produced by `splitInclusive`: every segment but
the last is some line-feed-free `u` followed by `'\n'`; the last segment is
either of that shape or line-feed-free and nonempty. -/
def goodSegs : List Str → Prop
  | [] => True
  | [seg] => (¬ seg = []) ∧ ((∃ u, seg = u ++ ['\n'] ∧ ¬ '\n' ∈ u) ∨ ¬ '\n' ∈ seg)
  | seg :: rest => (∃ u, seg = u ++ ['\n'] ∧ ¬ '\n' ∈ u) ∧ goodSegs rest

/-! ## Concrete claim inputs -/

/-- Scenario S5 document: a single anchor block `p1` of kind 2. -/
def s5doc : Document :=
  { page_hash := ("ph").data
    hash_algorithm := ("xxh64").data
    blocks := [{ id := ("p1").data, kind_code := 2, text_hash := [], text := ("First paragraph text.").data }] }

/-- Scenario S5 patch: RFC-form `insert_after` with `new_block_id = "p1a"`,
`kind_code = 2`, `text = "Inserted."`. -/
def s5patch : PatchV1 :=
  { v := 1
    h := some ("ph").data
    ha := none
    ops := [{ op := .insertAfter, block_id := ("p1").data, new_block_id := some ("p1a").data
              kind_code := some 2, text := some ("Inserted.").data }] }

/-- Document for the C4 counterexample: page hash `"aaaa"`, algorithm
`xxh64`. -/
def c4doc : Document :=
  { page_hash := ("aaaa").data, hash_algorithm := ("xxh64").data, blocks := [] }

/-- Patch for the C4 counterexample: `h` present and differing from the
page hash, but `ha` bound to a different algorithm. -/
def c4patch : PatchV1 :=
  { v := 1, h := some ("bbbb").data, ha := some ("sha256").data, ops := [] }

/-- Edit packet for the C5 counterexample: its single block has kindCode 77,
outside the codebook v1 canonical ranges (0–59 or 99). -/
def c5packet : EditPacketV1 :=
  { v := 1, h := ("x").data, ha := ("xxh64").data
    b := [(("p1").data, 77, ("th").data, ("hello").data)] }

/-- Patch for the C5 counterexample: a well-formed `suggest` op anchored at
the out-of-range block. -/
def c5patch : PatchV1 :=
  { v := 1, ops := [{ op := .suggest, block_id := ("p1").data, message := some ("note").data }] }

/-- An edit packet with an unsupported version, used to witness the C5
amended theorem on a concrete validation error. -/
def c5badPacket : EditPacketV1 :=
  { v := 2, h := ("x").data, ha := ("xxh64").data, b := [] }

/-- Document for the C6 failing input: two blocks. -/
def c6doc : Document :=
  { page_hash := ("x").data, hash_algorithm := ("xxh64").data
    blocks := [{ id := ("b1").data, kind_code := 2, text_hash := [], text := ("t1").data },
               { id := ("b2").data, kind_code := 2, text_hash := [], text := ("t2").data }] }

/-- Patch for the C6 failing input: conflicting operations on both `b1` and
`b2` (each block has a `delete_block` combined with another op), so the
conflict scan has two groups that can fire and reports whichever its
`HashMap` iteration order visits first. -/
def c6patch : PatchV1 :=
  { v := 1, h := some ("x").data
    ops := [{ op := .deleteBlock, block_id := ("b1").data },
            { op := .suggest, block_id := ("b1").data, message := some ("m").data },
            { op := .deleteBlock, block_id := ("b2").data },
            { op := .suggest, block_id := ("b2").data, message := some ("m").data }] }

/-- Document for the C7 witness: one block whose text contains exactly two
non-overlapping matches of the needle. -/
def c7doc : Document :=
  { page_hash := ("y").data, hash_algorithm := ("xxh64").data
    blocks := [{ id := ("p1").data, kind_code := 2, text_hash := [], text := ("aaaabbbbaaaabbbb").data }] }

/-- Replace op for the C7 witness: 8-character needle, occurrence 3 of 2. -/
def c7op : PatchOpV1 :=
  { op := .replace, block_id := ("p1").data, before := some ("aaaabbbb").data
    after := some ("cc").data, occurrence := some (.index 3) }

/-- Patch for the C9 witness: a single applicable replace. -/
def c9patch : PatchV1 :=
  { v := 1, h := some ("y").data
    ops := [{ op := .replace, block_id := ("p1").data, before := some ("aaaabbbb").data
              after := some ("xyxy").data, occurrence := some (.index 2) }] }

/-- Document for the C8 witness: unnormalized algorithm spelling and text
with canonicalizable line endings. -/
def c8doc : Document :=
  { page_hash := [], hash_algorithm := (" XXH64 ").data
    blocks := [{ id := ("p1").data, kind_code := 2, text_hash := [], text := ("hello \r\nworld").data }] }

/-- Patch for the C2 witness: a single `delete_block` on `b1`. -/
def c2patch : PatchV1 :=
  { v := 1, h := some ("x").data
    ops := [{ op := .deleteBlock, block_id := ("b1").data }] }

/-- Patch for the C10 counterexample: empty ops, `h` bound to the page hash,
but `ha` bound to the other supported algorithm. -/
def c10badPatch : PatchV1 :=
  { v := 1, h := some ("y").data, ha := some ("sha256").data, ops := [] }

/-- Patch used to witness the amended C4: `h` present and wrong, `ha`
absent. -/
def c4okPatch : PatchV1 :=
  { v := 1, h := some ("bbbb").data, ha := none, ops := [] }

/-! ## Codebook (`bdir-codebook/src/lib.rs`) -/

/-- `bdir_codebook::KindImportance`. -/
inductive KindImportance where
  | core
  | boilerplate
  | uiChrome
  | unknown
deriving DecidableEq, Repr

/-- `bdir_codebook::ranges::CORE_START`. -/
def coreStart : Nat := 0

/-- `bdir_codebook::ranges::CORE_END`. -/
def coreEnd : Nat := 19

/-- `bdir_codebook::ranges::BOILERPLATE_START`. -/
def boilerplateStart : Nat := 20

/-- `bdir_codebook::ranges::BOILERPLATE_END`. -/
def boilerplateEnd : Nat := 39

/-- `bdir_codebook::ranges::UI_CHROME_START`. -/
def uiChromeStart : Nat := 40

/-- `bdir_codebook::ranges::UI_CHROME_END`. -/
def uiChromeEnd : Nat := 59

/-- `bdir_codebook::ranges::UNKNOWN`. -/
def unknownKind : Nat := 99

/-- `bdir_codebook::importance`. -/
def importance (kind_code : Nat) : KindImportance :=
  if coreStart ≤ kind_code ∧ kind_code ≤ coreEnd then .core
  else if boilerplateStart ≤ kind_code ∧ kind_code ≤ boilerplateEnd then .boilerplate
  else if uiChromeStart ≤ kind_code ∧ kind_code ≤ uiChromeEnd then .uiChrome
  else .unknown

/-- The codebook v1 canonical ranges named by the spec (0–59 or 99): the
union of the named range constants.  The codebook source exposes the
constants but no such predicate, and nothing in `validate.rs` consults
them. -/
def inV1CanonicalRanges (kind_code : Nat) : Bool :=
  (decide (coreStart ≤ kind_code) && decide (kind_code ≤ uiChromeEnd)) ||
    decide (kind_code = unknownKind)

/-! # Theorems -/

/-- Claim C9: whenever `apply_patch_against_document` succeeds, the default
validator accepts the same document/patch pair — application can never
succeed on a patch the validator rejects (the applier runs the validator
first and propagates its failure). -/
theorem claim_C9 (D : Document) (P : PatchV1)
    (h : exceptOk (apply_patch_against_document D P) = true) :
    validate_patch D P = .ok () := by
  unfold apply_patch_against_document at h
  cases hv : validate_patch D P with
  | error e => rw [hv] at h; simp [exceptOk] at h
  | ok u => cases u; rfl

/-- Witness for C9: a concrete document and patch on which application
succeeds, with the validator acceptance obtained by the theorem. -/
theorem claim_C9_witness :
    exceptOk (apply_patch_against_document c7doc c9patch) = true ∧
      validate_patch c7doc c9patch = .ok () :=
  ⟨by decide, claim_C9 c7doc c9patch (by decide)⟩

/-- Claim C1 (code bug evidence): on scenario S5 the validator accepts the
RFC-form `insert_after` carrying `new_block_id = "p1a"`, yet the applier in
`src/crates/bdir-patch/src/apply.rs` inserts a block whose id is the minted
`"p1_ins"` (`make_insert_id_doc`) rather than `"p1a"`. -/
theorem claim_C1_minted_id :
    validate_patch s5doc s5patch = .ok () ∧
      (apply_patch_against_document s5doc s5patch).map (fun d => idsOf d.blocks) =
        .ok [("p1").data, ("p1_ins").data] ∧
      make_insert_id_doc s5doc.blocks ("p1").data = ("p1_ins").data ∧
      ¬ (("p1_ins").data : Str) = ("p1a").data := by decide

/-- Claim C6 (code bug evidence): with conflicting operations on two
distinct blocks, the conflict-scan outcome depends on the order in which the
groups are visited; both orders below are permutations of the group key set,
i.e. both are possible iteration orders of the source `HashMap`, and they
yield different diagnostics. -/
theorem claim_C6_order_dependent :
    ¬ validateWithOrder c6doc c6patch ValidateOptions.default [("b1").data, ("b2").data] =
        validateWithOrder c6doc c6patch ValidateOptions.default [("b2").data, ("b1").data] ∧
      List.Perm [("b1").data, ("b2").data] (conflictKeys c6patch.ops) ∧
      List.Perm [("b2").data, ("b1").data] (conflictKeys c6patch.ops) := by decide

/-- Counterexample to claim C4 as stated: a patch whose `h` is present and
differs from the document page hash, but whose `ha` names a different
algorithm; the validator reports `hash_algorithm_mismatch`, not
`patch_page_hash_mismatch` (the `ha` binding check runs first). -/
theorem claim_C4_counterexample :
    c4patch.v = 1 ∧ c4patch.h = some ("bbbb").data ∧
      ¬ (("bbbb").data : Str) = c4doc.page_hash ∧
      diagCode (validate_patch_with_diagnostics c4doc c4patch ValidateOptions.default) =
        some DiagnosticCode.hashAlgorithmMismatch ∧
      ¬ DiagnosticCode.hashAlgorithmMismatch = DiagnosticCode.patchPageHashMismatch := by decide

/-- Counterexample to claim C5 as stated: an edit packet whose anchor block
has kindCode 77 — outside the codebook v1 canonical ranges — is accepted
outright by the edit-packet validator under default options; no
`kind_code_out_of_range` rejection happens. -/
theorem claim_C5_counterexample :
    (liftPacket c5packet).blocks.map (·.kind_code) = [77] ∧
      inV1CanonicalRanges 77 = false ∧
      validate_patch_against_edit_packet_with_diagnostics c5packet c5patch
        ValidateOptions.default = .ok () := by decide

/-- Counterexample to claim C10 as stated: an empty-ops patch with `v = 1`
and `h` equal to the document page hash is still rejected when its `ha`
binds a different algorithm, so application fails instead of returning the
rehashed document. -/
theorem claim_C10_counterexample :
    c10badPatch.v = 1 ∧ c10badPatch.h = some c7doc.page_hash ∧ c10badPatch.ops = [] ∧
      exceptOk (apply_patch_against_document c7doc c10badPatch) = false := by decide

/-- Counterexample to claim C3 as stated: `canonicalize_text` leaves the
NFC-decomposed sequence `e` + U+0301 unchanged, and that string is not
NFC-normalized (its NFC form is the single character U+00E9), so the output
of canonicalization is not always NFC-normalized. -/
theorem claim_C3_counterexample :
    canonicalize_text ['e', accCh] = ['e', accCh] ∧
      normalize_nfc ['e', accCh] = [eAcute] ∧
      ¬ (['e', accCh] : Str) = [eAcute] := by decide


theorem charOfNat_toNat {n : Nat} (h : n.isValidChar) : (Char.ofNat n).toNat = n := by
  unfold Char.ofNat
  split
  · rfl
  · exact absurd h (by assumption)

theorem char_eq_iff_toNat (a b : Char) : a = b ↔ a.toNat = b.toNat :=
  ⟨fun h => h ▸ rfl, fun h => Char.ext (UInt32.toNat.inj h)⟩

theorem lowerChar_toNat_of_upper {c : Char} (h1 : 'A' ≤ c) (h2 : c ≤ 'Z') :
    (lowerChar c).toNat = c.toNat + 32 := by
  have h90 : c.toNat ≤ 90 := h2
  have hv : (c.toNat + 32).isValidChar := Or.inl (by omega)
  unfold lowerChar
  rw [if_pos ⟨h1, h2⟩]
  exact charOfNat_toNat hv

theorem isWs_lowerChar (c : Char) : isWsChar (lowerChar c) = isWsChar c := by
  by_cases h : 'A' ≤ c ∧ c ≤ 'Z'
  · have ht := lowerChar_toNat_of_upper h.1 h.2
    have h65 : 65 ≤ c.toNat := h.1
    have h90 : c.toNat ≤ 90 := h.2
    have l : isWsChar (lowerChar c) = false := by
      simp only [isWsChar, Bool.or_eq_false_iff, decide_eq_false_iff_not, char_eq_iff_toNat, ht,
        show (' ').toNat = 32 from rfl, show ('\t').toNat = 9 from rfl,
        show ('\n').toNat = 10 from rfl, show ('\r').toNat = 13 from rfl]
      omega
    have r : isWsChar c = false := by
      simp only [isWsChar, Bool.or_eq_false_iff, decide_eq_false_iff_not, char_eq_iff_toNat,
        show (' ').toNat = 32 from rfl, show ('\t').toNat = 9 from rfl,
        show ('\n').toNat = 10 from rfl, show ('\r').toNat = 13 from rfl]
      omega
    rw [l, r]
  · unfold lowerChar
    rw [if_neg h]

theorem lowerChar_idem (c : Char) : lowerChar (lowerChar c) = lowerChar c := by
  by_cases h : 'A' ≤ c ∧ c ≤ 'Z'
  · have ht := lowerChar_toNat_of_upper h.1 h.2
    have h65 : 65 ≤ c.toNat := h.1
    have hc : ¬ ('A' ≤ lowerChar c ∧ lowerChar c ≤ 'Z') := by
      intro hh
      have hz : (lowerChar c).toNat ≤ 90 := hh.2
      omega
    rw [show lowerChar (lowerChar c) =
        (if 'A' ≤ lowerChar c ∧ lowerChar c ≤ 'Z' then Char.ofNat ((lowerChar c).toNat + 32)
         else lowerChar c) from rfl, if_neg hc]
  · have hfix : lowerChar c = c := by
      unfold lowerChar
      rw [if_neg h]
    rw [hfix]
    exact hfix

theorem trimStr_eq_rdrop (s : Str) : trimStr s = (s.dropWhile isWsChar).rdropWhile isWsChar := rfl

theorem dropWhile_trimStr (s : Str) : (trimStr s).dropWhile isWsChar = trimStr s := by
  rw [trimStr_eq_rdrop]
  rcases ht : (s.dropWhile isWsChar).rdropWhile isWsChar with _ | ⟨a, t⟩
  · simp
  · have hpre := List.rdropWhile_prefix isWsChar (s.dropWhile isWsChar)
    rw [ht] at hpre
    have hlen0 : 0 < (s.dropWhile isWsChar).length := lt_of_lt_of_le (by simp) hpre.length_le
    have hget : (a :: t)[0] = (s.dropWhile isWsChar)[0] := hpre.getElem (by simp)
    have hhead : ¬ isWsChar ((s.dropWhile isWsChar).get ⟨0, hlen0⟩) = true := by
      have := (List.dropWhile_eq_self_iff.mp (List.dropWhile_idempotent (l := s) (p := isWsChar))) hlen0
      exact this
    have ha : ¬ isWsChar a = true := by
      have h0 : (a :: t)[0] = a := rfl
      rw [h0] at hget
      rw [List.get_eq_getElem] at hhead
      rw [← hget] at hhead
      exact hhead
    rw [List.dropWhile_cons, if_neg ha]

theorem trimStr_idem (s : Str) : trimStr (trimStr s) = trimStr s := by
  rw [show trimStr (trimStr s) = ((trimStr s).dropWhile isWsChar).rdropWhile isWsChar from rfl]
  rw [dropWhile_trimStr, trimStr_eq_rdrop, List.rdropWhile_idempotent]

theorem dropWhile_map_lower (s : Str) :
    (s.map lowerChar).dropWhile isWsChar = (s.dropWhile isWsChar).map lowerChar := by
  induction s with
  | nil => simp
  | cons c t ih =>
    simp only [List.map_cons, List.dropWhile_cons, isWs_lowerChar]
    split
    · exact ih
    · simp

theorem trimStr_lowerStr (s : Str) : trimStr (lowerStr s) = lowerStr (trimStr s) := by
  unfold lowerStr
  rw [trimStr_eq_rdrop, trimStr_eq_rdrop, dropWhile_map_lower]
  unfold List.rdropWhile
  rw [← List.map_reverse, dropWhile_map_lower, ← List.map_reverse]

theorem lowerStr_idem (s : Str) : lowerStr (lowerStr s) = lowerStr s := by
  unfold lowerStr
  rw [List.map_map]
  apply List.map_congr_left
  intro c _
  exact lowerChar_idem c

theorem trimLower_idem (s : Str) : trimLower (trimLower s) = trimLower s := by
  unfold trimLower
  rw [trimStr_lowerStr, trimStr_idem, lowerStr_idem]

theorem hash_hex_nil (s : Str) : hash_hex [] s = none := rfl

theorem recompute_ok (D : Document) (hsupp : ¬ hash_hex (trimLower D.hash_algorithm) [] = none) :
    try_recompute_hashes D = .ok
      { page_hash := (hash_hex (trimLower D.hash_algorithm)
          (pagePayload (D.blocks.map (recomputeBlock (trimLower D.hash_algorithm))))).getD []
        hash_algorithm := trimLower D.hash_algorithm
        blocks := D.blocks.map (recomputeBlock (trimLower D.hash_algorithm)) } := by
  have h1 : ¬ trimLower D.hash_algorithm = [] := by
    intro he
    rw [he] at hsupp
    exact hsupp (hash_hex_nil [])
  have h2 : (hash_hex (trimLower D.hash_algorithm) []).isNone = false := by
    cases hh : hash_hex (trimLower D.hash_algorithm) [] with
    | none => exact absurd hh hsupp
    | some v => rfl
  simp [try_recompute_hashes, normalize_hash_algorithm, h1, h2]

/-- Claim C8: for every document whose declared hash algorithm normalizes
(trim + lowercase) to a supported algorithm, `try_recompute_hashes` is
idempotent: running it twice yields exactly the document produced by
running it once (same block `text_hash` values, same `page_hash`). -/
theorem claim_C8 (D : Document)
    (hsupp : ¬ hash_hex (trimLower D.hash_algorithm) [] = none) :
    ∃ D1, try_recompute_hashes D = .ok D1 ∧ try_recompute_hashes D1 = .ok D1 := by
  refine ⟨_, recompute_ok D hsupp, ?_⟩
  have halgo : trimLower (trimLower D.hash_algorithm) = trimLower D.hash_algorithm :=
    trimLower_idem _
  have hsupp2 : ¬ hash_hex (trimLower (trimLower D.hash_algorithm)) [] = none := by
    rw [halgo]
    exact hsupp
  rw [recompute_ok _ hsupp2]
  have hb : (D.blocks.map (recomputeBlock (trimLower D.hash_algorithm))).map
      (recomputeBlock (trimLower D.hash_algorithm)) =
      D.blocks.map (recomputeBlock (trimLower D.hash_algorithm)) := by
    rw [List.map_map]
    apply List.map_congr_left
    intro b _
    rfl
  simp only [halgo, hb]

/-- Claim C10 (amended): for every document with a supported hash algorithm
and every empty-ops patch with `v = 1`, `h` equal to the page hash, and `ha`
absent or matching, application succeeds and returns the document with
block count, order, ids, kind codes and texts unchanged and every
`text_hash` and the `page_hash` recomputed. -/
theorem claim_C10_amended (D : Document) (ha : Option Str)
    (hsupp : ¬ hash_hex (trimLower D.hash_algorithm) [] = none)
    (hha : ha = none ∨ ∃ a, ha = some a ∧ ¬ trimLower a = [] ∧
      trimLower a = trimLower D.hash_algorithm) :
    ∃ out, apply_patch_against_document D { v := 1, h := some D.page_hash, ha := ha, ops := [] } =
        .ok out ∧
      idsOf out.blocks = idsOf D.blocks ∧
      out.blocks.map (·.kind_code) = D.blocks.map (·.kind_code) ∧
      out.blocks.map (·.text) = D.blocks.map (·.text) ∧
      out.blocks.length = D.blocks.length ∧
      out.blocks = D.blocks.map (recomputeBlock (trimLower D.hash_algorithm)) ∧
      out.page_hash = (hash_hex (trimLower D.hash_algorithm) (pagePayload out.blocks)).getD [] := by
  have hval : validate_patch D { v := 1, h := some D.page_hash, ha := ha, ops := [] } = .ok () := by
    rcases hha with hnone | ⟨a, haeq, hae, haeq2⟩
    · simp [validate_patch, validate_patch_with_options, validate_patch_with_diagnostics,
        validateWithOrder, strictBindingCheck, ValidateOptions.default, resolveExpected, haCheck,
        hnone, conflictKeys, dedupFirst, conflictScan, checkOps, Except.mapError]
    · rw [haeq2] at hae
      simp [validate_patch, validate_patch_with_options, validate_patch_with_diagnostics,
        validateWithOrder, strictBindingCheck, ValidateOptions.default, resolveExpected, haCheck,
        haeq, hae, haeq2, conflictKeys, dedupFirst, conflictScan, checkOps, Except.mapError]
  have happ : apply_patch_against_document D { v := 1, h := some D.page_hash, ha := ha, ops := [] } =
      try_recompute_hashes D := by
    unfold apply_patch_against_document
    rw [hval]
    rfl
  refine ⟨_, by rw [happ]; exact recompute_ok D hsupp, ?_, ?_, ?_, ?_, rfl, rfl⟩
  · show idsOf (D.blocks.map (recomputeBlock (trimLower D.hash_algorithm))) = idsOf D.blocks
    unfold idsOf
    rw [List.map_map]
    rfl
  · show (D.blocks.map (recomputeBlock (trimLower D.hash_algorithm))).map (·.kind_code) =
      D.blocks.map (·.kind_code)
    rw [List.map_map]
    rfl
  · show (D.blocks.map (recomputeBlock (trimLower D.hash_algorithm))).map (·.text) =
      D.blocks.map (·.text)
    rw [List.map_map]
    rfl
  · show (D.blocks.map (recomputeBlock (trimLower D.hash_algorithm))).length = D.blocks.length
    rw [List.length_map]


/-- Claim C4 (amended): for every document and patch with `v = 1`, `h`
present and different from the document page hash, and `ha` absent or
matching the document algorithm (after trim+lowercase, nonempty), default
validation returns the `patch_page_hash_mismatch` diagnostic. -/
theorem claim_C4_amended (D : Document) (P : PatchV1) (x : Str)
    (hv : P.v = 1) (hx : P.h = some x) (hne : ¬ x = D.page_hash)
    (hha : P.ha = none ∨ ∃ a, P.ha = some a ∧ ¬ trimLower a = [] ∧
      trimLower a = trimLower D.hash_algorithm) :
    diagCode (validate_patch_with_diagnostics D P ValidateOptions.default) =
      some DiagnosticCode.patchPageHashMismatch := by
  have hne2 : ¬ D.page_hash = x := fun hh => hne hh.symm
  rcases hha with hnone | ⟨a, ha, hae, haeq⟩
  · simp [validate_patch_with_diagnostics, validateWithOrder, strictBindingCheck,
      ValidateOptions.default, resolveExpected, haCheck, hv, hx, hnone, hne2,
      diagCode, err_root, ValidationError.single]
  · rw [haeq] at hae
    simp [validate_patch_with_diagnostics, validateWithOrder, strictBindingCheck,
      ValidateOptions.default, resolveExpected, haCheck, hv, hx, ha, hae, haeq, hne2,
      diagCode, err_root, ValidationError.single]

/-- Witness for the amended C4 at a concrete mismatching patch. -/
theorem claim_C4_witness :
    ¬ (("bbbb").data : Str) = c4doc.page_hash ∧
      diagCode (validate_patch_with_diagnostics c4doc c4okPatch ValidateOptions.default) =
        some DiagnosticCode.patchPageHashMismatch :=
  ⟨by decide, claim_C4_amended c4doc c4okPatch (("bbbb").data) rfl rfl (by decide) (Or.inl rfl)⟩

/-- Witness for C8 at a concrete document with an unnormalized algorithm
spelling. -/
theorem claim_C8_witness :
    ∃ D1, try_recompute_hashes c8doc = .ok D1 ∧ try_recompute_hashes D1 = .ok D1 :=
  claim_C8 c8doc (by decide)

/-- Witness for the amended C10 at a concrete two-block document. -/
theorem claim_C10_witness :
    ∃ out, apply_patch_against_document c6doc
        { v := 1, h := some c6doc.page_hash, ha := none, ops := [] } = .ok out ∧
      idsOf out.blocks = idsOf c6doc.blocks ∧
      out.blocks.map (·.kind_code) = c6doc.blocks.map (·.kind_code) ∧
      out.blocks.map (·.text) = c6doc.blocks.map (·.text) ∧
      out.blocks.length = c6doc.blocks.length ∧
      out.blocks = c6doc.blocks.map (recomputeBlock (trimLower c6doc.hash_algorithm)) ∧
      out.page_hash = (hash_hex (trimLower c6doc.hash_algorithm) (pagePayload out.blocks)).getD [] :=
  claim_C10_amended c6doc none (by decide) (Or.inl rfl)


/-- Claim C7: for a replace or delete op carrying integer occurrence `n`,
anchored on an existing block, whose `before` passes the emptiness and
minimum-length guards and has `m > 0` non-overlapping matches of
NFC(before) in NFC(text) (`count_non_overlapping`), validation fails with
`occurrence_out_of_range` if and only if `n = 0` or `n > m`. -/
theorem claim_C7 (D : Document) (op : PatchOpV1) (blk : Block) (bef : Str) (n : Nat)
    (hkind : op.op = OpType.replace ∨ op.op = OpType.delete)
    (hfind : findBlock D.blocks op.block_id = some blk)
    (hbef : op.before = some bef)
    (hocc : op.occurrence = some (Occurrence.index n))
    (hra : op.op = OpType.replace → ¬ op.after = none)
    (hg1 : ¬ trimStr (normalize_nfc bef) = [])
    (hg2 : ValidateOptions.default.min_before_len ≤ (normalize_nfc bef).length)
    (hm : 0 < count_non_overlapping blk.text bef) :
    diagCode (validate_patch_with_diagnostics D
        { v := 1, h := some D.page_hash, ha := none, ops := [op] } ValidateOptions.default) =
      some DiagnosticCode.occurrenceOutOfRange ↔
      (n = 0 ∨ count_non_overlapping blk.text bef < n) := by
  have hg2x : 8 ≤ (normalize_nfc bef).length := hg2
  have hguard : guard_before_diag 0 op.op op.block_id bef 8 = none := by
    unfold guard_before_diag
    rw [if_neg hg1, if_neg (by omega)]
  have hm0 : ¬ count_non_overlapping blk.text bef = 0 := Nat.pos_iff_ne_zero.mp hm
  rcases hkind with hop | hop
  · rw [hop] at hguard
    obtain ⟨aft, haft⟩ := Option.ne_none_iff_exists.mp (hra hop)
    by_cases hcase : n = 0 ∨ count_non_overlapping blk.text bef < n
    · simp [validate_patch_with_diagnostics, validateWithOrder, strictBindingCheck,
        ValidateOptions.default, resolveExpected, haCheck, conflictKeys, dedupFirst,
        conflictScan, conflictCheckGroup, opsetFor, List.enum, List.enumFrom, checkOps,
        checkOp, hfind, enforce_kind_code, checkOpKind, hop, hbef, hocc, ← haft, hguard,
        hm0, hcase, diagCode, err_op, ValidationError.single]
    · simp [validate_patch_with_diagnostics, validateWithOrder, strictBindingCheck,
        ValidateOptions.default, resolveExpected, haCheck, conflictKeys, dedupFirst,
        conflictScan, conflictCheckGroup, opsetFor, List.enum, List.enumFrom, checkOps,
        checkOp, hfind, enforce_kind_code, checkOpKind, hop, hbef, hocc, ← haft, hguard,
        hm0, hcase, diagCode, err_op, ValidationError.single]
  · rw [hop] at hguard
    by_cases hcase : n = 0 ∨ count_non_overlapping blk.text bef < n
    · simp [validate_patch_with_diagnostics, validateWithOrder, strictBindingCheck,
        ValidateOptions.default, resolveExpected, haCheck, conflictKeys, dedupFirst,
        conflictScan, conflictCheckGroup, opsetFor, List.enum, List.enumFrom, checkOps,
        checkOp, hfind, enforce_kind_code, checkOpKind, hop, hbef, hocc, hguard,
        hm0, hcase, diagCode, err_op, ValidationError.single]
    · simp [validate_patch_with_diagnostics, validateWithOrder, strictBindingCheck,
        ValidateOptions.default, resolveExpected, haCheck, conflictKeys, dedupFirst,
        conflictScan, conflictCheckGroup, opsetFor, List.enum, List.enumFrom, checkOps,
        checkOp, hfind, enforce_kind_code, checkOpKind, hop, hbef, hocc, hguard,
        hm0, hcase, diagCode, err_op, ValidationError.single]


/-- Witness for C7: needle with exactly two matches, occurrence 3. -/
theorem claim_C7_witness :
    ((3 : Nat) = 0 ∨ count_non_overlapping (("aaaabbbbaaaabbbb").data) (("aaaabbbb").data) < 3) ∧
      diagCode (validate_patch_with_diagnostics c7doc
          { v := 1, h := some c7doc.page_hash, ha := none, ops := [c7op] }
          ValidateOptions.default) =
        some DiagnosticCode.occurrenceOutOfRange :=
  ⟨by decide,
    (claim_C7 c7doc c7op
        { id := ("p1").data, kind_code := 2, text_hash := [], text := ("aaaabbbbaaaabbbb").data }
        (("aaaabbbb").data) 3 (Or.inl rfl) (by decide) rfl rfl (by decide) (by decide)
        (by decide) (by decide)).mpr (by decide)⟩


theorem mem_crToLf {c : Char} {s : Str} (h : c ∈ crToLf s) : ¬ c = '\r' := by
  unfold crToLf at h
  obtain ⟨a, _, ha⟩ := List.mem_map.mp h
  intro hc
  rw [hc] at ha
  by_cases haa : a = '\r'
  · rw [if_pos haa] at ha
    exact absurd ha (by decide)
  · rw [if_neg haa] at ha
    exact haa ha

theorem splitInclusive_flatten (s : Str) : (splitInclusive s).flatten = s := by
  induction s with
  | nil => rfl
  | cons c rest ih =>
    unfold splitInclusive
    by_cases hc : c = '\n'
    · rw [if_pos hc, hc]
      simp only [List.flatten_cons, ih]
      rfl
    · rw [if_neg hc]
      rcases hsp : splitInclusive rest with _ | ⟨seg, segs⟩
      · rw [hsp] at ih
        simp only [List.flatten_nil] at ih
        simp [← ih]
      · rw [hsp] at ih
        simp only [List.flatten_cons] at ih ⊢
        rw [List.cons_append, ih]

theorem trimTrailWs_eq_rdrop (v : Str) : trimTrailWs v = v.rdropWhile isSpaceTab := rfl

theorem mem_trimTrailWs {c : Char} {v : Str} (h : c ∈ trimTrailWs v) : c ∈ v := by
  rw [trimTrailWs_eq_rdrop] at h
  exact (List.rdropWhile_prefix isSpaceTab v).sublist.subset h

theorem lastNonWs_trimTrailWs (v : Str) : lastNonWs (trimTrailWs v) := by
  intro h
  have h2 : List.rdropWhile isSpaceTab v ≠ [] := h
  have h3 := List.rdropWhile_last_not isSpaceTab v h2
  simpa using h3

theorem canonLine_append_lf (u : Str) : canonLine (u ++ ['\n']) = trimTrailWs u ++ ['\n'] := by
  unfold canonLine
  have hrev : (u ++ ['\n']).reverse = '\n' :: u.reverse := by simp
  rw [hrev]
  simp

theorem canonLine_not_lf_last {seg : Str} {c0 : Char} {r : Str}
    (hr : seg.reverse = c0 :: r) (hc0 : ¬ c0 = '\n') : canonLine seg = trimTrailWs seg := by
  unfold canonLine
  rw [hr]
  split
  · rename_i restRev heq
    injection heq with hh _
    exact absurd hh hc0
  · rfl

theorem canonLine_nil_rev {seg : Str} (hr : seg.reverse = []) :
    canonLine seg = trimTrailWs seg := by
  unfold canonLine
  rw [hr]

theorem canonLine_no_lf {seg : Str} (h : ¬ '\n' ∈ seg) : canonLine seg = trimTrailWs seg := by
  rcases hr : seg.reverse with _ | ⟨c0, r⟩
  · exact canonLine_nil_rev hr
  · refine canonLine_not_lf_last hr ?_
    intro he
    apply h
    have hm : c0 ∈ seg.reverse := by
      rw [hr]
      exact List.mem_cons_self _ _
    rw [he] at hm
    exact List.mem_reverse.mp hm

theorem mem_canonLine {c : Char} {seg : Str} (h : c ∈ canonLine seg) : c ∈ seg ∨ c = '\n' := by
  rcases hr : seg.reverse with _ | ⟨c0, r⟩
  · rw [canonLine_nil_rev hr] at h
    exact Or.inl (mem_trimTrailWs h)
  · by_cases hc0 : c0 = '\n'
    · have hseg : seg = r.reverse ++ ['\n'] := by
        have : seg = seg.reverse.reverse := (List.reverse_reverse seg).symm
        rw [this, hr, hc0]
        simp
      rw [hseg, canonLine_append_lf] at h
      rcases List.mem_append.mp h with h1 | h2
      · left
        rw [hseg]
        exact List.mem_append.mpr (Or.inl (mem_trimTrailWs h1))
      · right
        simpa using h2
    · rw [canonLine_not_lf_last hr hc0] at h
      exact Or.inl (mem_trimTrailWs h)

theorem noCR_canonicalize (s : Str) : ¬ '\r' ∈ canonicalize_text s := by
  intro hmem
  unfold canonicalize_text at hmem
  obtain ⟨x, hx, hcx⟩ := List.mem_flatten.mp hmem
  obtain ⟨seg, hseg, hcanon⟩ := List.mem_map.mp hx
  rcases mem_canonLine (hcanon ▸ hcx) with h1 | h2
  · have : '\r' ∈ (splitInclusive (crToLf (replaceCrlf s))).flatten :=
      List.mem_flatten.mpr ⟨seg, hseg, h1⟩
    rw [splitInclusive_flatten] at this
    exact mem_crToLf this rfl
  · exact absurd h2 (by decide)

theorem cleanCons_lf {w : Str} (hw : cleanLines w = true) : cleanLines ('\n' :: w) = true := by
  cases w with
  | nil => decide
  | cons x xs =>
    unfold cleanLines
    rw [hw]
    simp [isSpaceTab]

theorem not_lf_mem_cons {v : Str} {d : Char} (h : ¬ '\n' ∈ d :: v) : ¬ d = '\n' := by
  intro he
  exact h (he ▸ List.mem_cons_self d v)

theorem cleanPre : ∀ v w : Str, ¬ '\n' ∈ v → lastNonWs v → cleanLines w = true →
    cleanLines (v ++ '\n' :: w) = true := by
  intro v
  induction v with
  | nil =>
    intro w _ _ hw
    exact cleanCons_lf hw
  | cons c v' ih =>
    intro w hlf hlast hw
    cases v' with
    | nil =>
      have hc : isSpaceTab c = false := hlast (by simp)
      show cleanLines (c :: '\n' :: w) = true
      unfold cleanLines
      rw [hc]
      simp only [Bool.false_and, Bool.not_false, Bool.true_and]
      exact cleanCons_lf hw
    | cons d v'' =>
      have hd : ¬ d = '\n' := not_lf_mem_cons (fun hm => hlf (List.mem_cons_of_mem c hm))
      have hlf' : ¬ '\n' ∈ d :: v'' := fun hm => hlf (List.mem_cons_of_mem c hm)
      have hlast' : lastNonWs (d :: v'') := by
        intro hne
        have := hlast (by simp)
        rwa [List.getLast_cons (by simp)] at this
      have htail := ih w hlf' hlast' hw
      show cleanLines (c :: d :: (v'' ++ '\n' :: w)) = true
      unfold cleanLines
      rw [show (decide (d = '\n')) = false from by simp [hd]]
      simp only [Bool.and_false, Bool.not_false, Bool.true_and]
      exact htail

theorem cleanSingle : ∀ v : Str, ¬ '\n' ∈ v → lastNonWs v → cleanLines v = true := by
  intro v
  induction v with
  | nil =>
    intro _ _
    rfl
  | cons c v' ih =>
    intro hlf hlast
    cases v' with
    | nil =>
      have hc : isSpaceTab c = false := hlast (by simp)
      show cleanLines [c] = true
      unfold cleanLines
      rw [hc]
      rfl
    | cons d v'' =>
      have hd : ¬ d = '\n' := not_lf_mem_cons (fun hm => hlf (List.mem_cons_of_mem c hm))
      have hlf' : ¬ '\n' ∈ d :: v'' := fun hm => hlf (List.mem_cons_of_mem c hm)
      have hlast' : lastNonWs (d :: v'') := by
        intro hne
        have := hlast (by simp)
        rwa [List.getLast_cons (by simp)] at this
      have htail := ih hlf' hlast'
      unfold cleanLines
      rw [show (decide (d = '\n')) = false from by simp [hd]]
      simp only [Bool.and_false, Bool.not_false, Bool.true_and]
      exact htail

theorem lf_free_trimTrailWs {v : Str} (h : ¬ '\n' ∈ v) : ¬ '\n' ∈ trimTrailWs v :=
  fun hm => h (mem_trimTrailWs hm)

theorem goodSegs_cons₂ (seg a : Str) (as : List Str) :
    goodSegs (seg :: a :: as) =
      ((∃ u, seg = u ++ ['\n'] ∧ ¬ '\n' ∈ u) ∧ goodSegs (a :: as)) := rfl

theorem goodSegs_splitInclusive (s : Str) : goodSegs (splitInclusive s) := by
  induction s with
  | nil => trivial
  | cons c rest ih =>
    unfold splitInclusive
    by_cases hc : c = '\n'
    · rw [if_pos hc]
      rcases hsp : splitInclusive rest with _ | ⟨a, as⟩
      · exact ⟨by simp, Or.inl ⟨[], rfl, by simp⟩⟩
      · rw [hsp] at ih
        exact ⟨⟨[], rfl, by simp⟩, ih⟩
    · rw [if_neg hc]
      rcases hsp : splitInclusive rest with _ | ⟨seg, segs⟩
      · refine ⟨by simp, Or.inr ?_⟩
        intro hm
        rw [List.mem_singleton] at hm
        exact hc hm.symm
      · rw [hsp] at ih
        cases segs with
        | nil =>
          obtain ⟨hne, hd⟩ := ih
          refine ⟨by simp, ?_⟩
          rcases hd with ⟨u, hu, hulf⟩ | hfree
          · refine Or.inl ⟨c :: u, by rw [hu]; rfl, ?_⟩
            intro hm
            rcases List.mem_cons.mp hm with h1 | h2
            · exact hc h1.symm
            · exact hulf h2
          · refine Or.inr ?_
            intro hm
            rcases List.mem_cons.mp hm with h1 | h2
            · exact hc h1.symm
            · exact hfree h2
        | cons b bs =>
          obtain ⟨⟨u, hu, hulf⟩, hrest⟩ := ih
          refine ⟨⟨c :: u, by rw [hu]; rfl, ?_⟩, hrest⟩
          intro hm
          rcases List.mem_cons.mp hm with h1 | h2
          · exact hc h1.symm
          · exact hulf h2

theorem clean_join : ∀ segs : List Str, goodSegs segs →
    cleanLines ((segs.map canonLine).flatten) = true := by
  intro segs
  induction segs with
  | nil =>
    intro _
    rfl
  | cons seg rest ih =>
    intro hg
    cases rest with
    | nil =>
      obtain ⟨hne, hd⟩ := hg
      show cleanLines (canonLine seg ++ []) = true
      rw [List.append_nil]
      rcases hd with ⟨u, hu, hulf⟩ | hfree
      · rw [hu, canonLine_append_lf]
        exact cleanPre (trimTrailWs u) [] (lf_free_trimTrailWs hulf)
          (lastNonWs_trimTrailWs u) rfl
      · rw [canonLine_no_lf hfree]
        exact cleanSingle (trimTrailWs seg) (lf_free_trimTrailWs hfree)
          (lastNonWs_trimTrailWs seg)
    | cons b bs =>
      obtain ⟨⟨u, hu, hulf⟩, hrest⟩ := hg
      have htail := ih hrest
      show cleanLines (canonLine seg ++ ((b :: bs).map canonLine).flatten) = true
      rw [hu, canonLine_append_lf, List.append_assoc, List.singleton_append]
      exact cleanPre (trimTrailWs u) _ (lf_free_trimTrailWs hulf)
        (lastNonWs_trimTrailWs u) htail

/-- Claim C3 (amended): for every input string, `canonicalize_text` removes
every CR (CRLF and bare CR become LF) and leaves no space or tab immediately
before a line feed or at the end of the string; it applies no Unicode
normalization (see the counterexample theorem for the NFC part). -/
theorem claim_C3_amended (s : Str) :
    ¬ '\r' ∈ canonicalize_text s ∧ cleanLines (canonicalize_text s) = true := by
  refine ⟨noCR_canonicalize s, ?_⟩
  unfold canonicalize_text
  exact clean_join _ (goodSegs_splitInclusive _)



theorem nk_of_some_err {c : DiagnosticCode} {i : Nat} {op' : OpType} {bid : Option Str}
    {path : Option Str} {msg : Str} {e : ValidationError}
    (h : some (err_op c i op' bid path msg) = some e)
    (hc : ¬ c = DiagnosticCode.kindCodeOutOfRange) : NoKindCodeOutOfRange e := by
  cases h
  intro d hd
  simp only [err_op, ValidationError.single, List.mem_singleton] at hd
  subst hd
  exact hc

theorem nk_of_some_err_root {c : DiagnosticCode} {path : Str} {msg : Str} {e : ValidationError}
    (h : some (err_root c path msg) = some e)
    (hc : ¬ c = DiagnosticCode.kindCodeOutOfRange) : NoKindCodeOutOfRange e := by
  cases h
  intro d hd
  simp only [err_root, ValidationError.single, List.mem_singleton] at hd
  subst hd
  exact hc

theorem nk_guard {i : Nat} {op : OpType} {bid : Str} {bef : Str} {ml : Nat}
    {e : ValidationError} (h : guard_before_diag i op bid bef ml = some e) :
    NoKindCodeOutOfRange e := by
  unfold guard_before_diag at h
  dsimp only at h
  repeat' split at h
  all_goals
    first
    | exact Option.noConfusion h
    | exact nk_of_some_err h (by simp)

theorem nk_enforce {i : Nat} {op : OpType} {bid : Str} {kc : Nat} {opts : ValidateOptions}
    {e : ValidationError} (h : enforce_kind_code i op bid kc opts = some e) :
    NoKindCodeOutOfRange e := by
  unfold enforce_kind_code at h
  dsimp only at h
  repeat' split at h
  all_goals
    first
    | exact Option.noConfusion h
    | exact nk_of_some_err h (by simp)

set_option maxHeartbeats 2000000 in
theorem nk_checkOpKind {doc : Document} {opts : ValidateOptions} {i : Nat} {op : PatchOpV1}
    {blk : Block} {e : ValidationError} (h : checkOpKind doc opts i op blk = some e) :
    NoKindCodeOutOfRange e := by
  unfold checkOpKind at h
  dsimp only at h
  cases hop : op.op <;> rw [hop] at h <;> repeat' split at h
  all_goals
    first
    | exact Option.noConfusion h
    | exact nk_of_some_err h (by simp)
    | (cases h; exact nk_guard (by assumption))

theorem nk_checkOp {doc : Document} {opts : ValidateOptions} {i : Nat} {op : PatchOpV1}
    {e : ValidationError} (h : checkOp doc opts i op = some e) : NoKindCodeOutOfRange e := by
  unfold checkOp at h
  split at h
  · exact nk_of_some_err h (by simp)
  · split at h
    · cases h
      exact nk_enforce (by assumption)
    · exact nk_checkOpKind h

theorem nk_conflictCheckGroup {ops : List PatchOpV1} {bid : Str} {e : ValidationError}
    (h : conflictCheckGroup ops bid = some e) : NoKindCodeOutOfRange e := by
  unfold conflictCheckGroup at h
  dsimp only at h
  repeat' split at h
  all_goals
    first
    | exact Option.noConfusion h
    | exact nk_of_some_err h (by simp)

theorem nk_conflictScan {ops : List PatchOpV1} {order : List Str} {e : ValidationError}
    (h : conflictScan ops order = some e) : NoKindCodeOutOfRange e := by
  induction order with
  | nil => exact Option.noConfusion h
  | cons k ks ih =>
    unfold conflictScan at h
    split at h
    · cases h
      exact nk_conflictCheckGroup (by assumption)
    · exact ih h

theorem nk_checkOps {doc : Document} {opts : ValidateOptions} {e : ValidationError} :
    ∀ {i : Nat} {ops : List PatchOpV1}, checkOps doc opts i ops = some e →
      NoKindCodeOutOfRange e := by
  intro i ops
  induction ops generalizing i with
  | nil =>
    intro h
    exact Option.noConfusion h
  | cons op rest ih =>
    intro h
    unfold checkOps at h
    split at h
    · cases h
      exact nk_checkOp (by assumption)
    · exact ih h

theorem nk_strictBinding {patch : PatchV1} {opts : ValidateOptions} {e : ValidationError}
    (h : strictBindingCheck patch opts = some e) : NoKindCodeOutOfRange e := by
  unfold strictBindingCheck at h
  dsimp only at h
  repeat' split at h
  all_goals
    first
    | exact Option.noConfusion h
    | exact nk_of_some_err_root h (by simp)

theorem nk_resolveExpected {patch : PatchV1} {opts : ValidateOptions} {e : ValidationError}
    (h : resolveExpected patch opts = .error e) : NoKindCodeOutOfRange e := by
  unfold resolveExpected at h
  dsimp only at h
  repeat' split at h
  all_goals
    first
    | exact Except.noConfusion h
    | (cases h; exact nk_of_some_err_root rfl (by simp))

theorem nk_haCheck {doc : Document} {patch : PatchV1} {e : ValidationError}
    (h : haCheck doc patch = some e) : NoKindCodeOutOfRange e := by
  unfold haCheck at h
  dsimp only at h
  repeat' split at h
  all_goals
    first
    | exact Option.noConfusion h
    | exact nk_of_some_err_root h (by simp)

theorem nk_validateWithOrder {doc : Document} {patch : PatchV1} {opts : ValidateOptions}
    {order : List Str} {e : ValidationError}
    (h : validateWithOrder doc patch opts order = .error e) : NoKindCodeOutOfRange e := by
  unfold validateWithOrder at h
  dsimp only at h
  repeat' split at h
  all_goals
    first
    | exact Except.noConfusion h
    | (cases h; exact nk_of_some_err_root rfl (by simp))
    | (cases h; exact nk_strictBinding (by assumption))
    | (cases h; exact nk_resolveExpected (by assumption))
    | (cases h; exact nk_haCheck (by assumption))
    | (cases h; exact nk_conflictScan (by assumption))
    | (cases h; exact nk_checkOps (by assumption))

/-- Claim C5 (amended): the edit-packet validator never rejects anything
with `kind_code_out_of_range`: it performs no codebook-range check at all
(kindCode is gated only under `strict_kind_code`, which yields
`kind_code_disallowed`); every diagnostic it can return carries some other
code, for every packet, patch and options. -/
theorem claim_C5_amended (packet : EditPacketV1) (patch : PatchV1) (opts : ValidateOptions)
    (e : ValidationError)
    (h : validate_patch_against_edit_packet_with_diagnostics packet patch opts = .error e) :
    NoKindCodeOutOfRange e := by
  unfold validate_patch_against_edit_packet_with_diagnostics at h
  dsimp only at h
  split at h
  · exact nk_validateWithOrder h
  · cases h
    exact nk_of_some_err_root rfl (by simp)

/-- Witness for the amended C5: a concrete rejected validation (unsupported
packet version) whose diagnostic is not `kind_code_out_of_range`. -/
theorem claim_C5_witness :
    ∃ e, validate_patch_against_edit_packet_with_diagnostics c5badPacket c5patch
        ValidateOptions.default = .error e ∧ NoKindCodeOutOfRange e := by
  refine ⟨_, rfl, claim_C5_amended c5badPacket c5patch ValidateOptions.default _ rfl⟩



theorem updFirst_ids {bid : Str} {f : Block → Except Str Block} {bs bs' : List Block}
    (hpres : ∀ blk b2, f blk = .ok b2 → b2.id = blk.id)
    (h : updFirst bid f bs = .ok bs') : idsOf bs' = idsOf bs := by
  induction bs generalizing bs' with
  | nil => exact Except.noConfusion h
  | cons blk rest ih =>
    unfold updFirst at h
    split at h
    · split at h
      · exact Except.noConfusion h
      · rename_i b2 hf
        cases h
        simp [idsOf, hpres blk b2 hf]
    · split at h
      · exact Except.noConfusion h
      · rename_i r hr
        cases h
        simp [idsOf]
        exact ih hr

theorem insertAfterFirst_count {b bid : Str} {nb : Block} {bs bs' : List Block}
    (hne : ¬ nb.id = b) (h : insertAfterFirst bid nb bs = .ok bs') :
    countB b bs' = countB b bs := by
  induction bs generalizing bs' with
  | nil => exact Except.noConfusion h
  | cons blk rest ih =>
    unfold insertAfterFirst at h
    split at h
    · cases h
      simp [countB, idsOf, List.count_cons, hne]
    · split at h
      · exact Except.noConfusion h
      · rename_i r hr
        cases h
        simp only [countB, idsOf, List.map_cons, List.count_cons] at ih ⊢
        rw [ih hr]

theorem insertBeforeFirst_count {b bid : Str} {nb : Block} {bs bs' : List Block}
    (hne : ¬ nb.id = b) (h : insertBeforeFirst bid nb bs = .ok bs') :
    countB b bs' = countB b bs := by
  induction bs generalizing bs' with
  | nil => exact Except.noConfusion h
  | cons blk rest ih =>
    unfold insertBeforeFirst at h
    split at h
    · cases h
      simp [countB, idsOf, List.count_cons, hne]
    · split at h
      · exact Except.noConfusion h
      · rename_i r hr
        cases h
        simp only [countB, idsOf, List.map_cons, List.count_cons] at ih ⊢
        rw [ih hr]

theorem removeFirstBlock_count_eq {b bid : Str} {bs bs' : List Block}
    (heq : bid = b) (h : removeFirstBlock bid bs = .ok bs') :
    countB b bs' + 1 = countB b bs := by
  subst heq
  induction bs generalizing bs' with
  | nil => exact Except.noConfusion h
  | cons blk rest ih =>
    unfold removeFirstBlock at h
    split at h
    · rename_i hid
      cases h
      simp [countB, idsOf, List.count_cons, hid]
    · rename_i hid
      split at h
      · exact Except.noConfusion h
      · rename_i r hr
        cases h
        simp only [countB, idsOf, List.map_cons, List.count_cons] at ih ⊢
        rw [← ih hr]
        have hbf : (blk.id == bid) = false := by
          simp [hid]
        simp [hbf]

theorem removeFirstBlock_count_ne {b bid : Str} {bs bs' : List Block}
    (hne : ¬ bid = b) (h : removeFirstBlock bid bs = .ok bs') :
    countB b bs' = countB b bs := by
  induction bs generalizing bs' with
  | nil => exact Except.noConfusion h
  | cons blk rest ih =>
    unfold removeFirstBlock at h
    split at h
    · rename_i hid
      cases h
      have hbf : (blk.id == b) = false := by
        simp only [beq_eq_false_iff_ne, ne_eq]
        intro hbb
        exact hne (hid ▸ hbb ▸ rfl)
      simp [countB, idsOf, List.count_cons, hbf]
    · split at h
      · exact Except.noConfusion h
      · rename_i r hr
        cases h
        simp only [countB, idsOf, List.map_cons, List.count_cons] at ih ⊢
        rw [ih hr]

theorem substrArm_ids {op : PatchOpV1} {bs bs' : List Block}
    (h : substrArm op bs = .ok bs') : idsOf bs' = idsOf bs := by
  unfold substrArm at h
  repeat' split at h
  all_goals
    first
    | exact Except.noConfusion h
    | refine updFirst_ids ?_ h
  all_goals
    intro blk b2 hf
  all_goals
    repeat' split at hf
  all_goals
    first
    | exact Except.noConfusion hf
    | (cases hf; rfl)

theorem count_of_ids_eq {b : Str} {bs bs' : List Block}
    (h : idsOf bs' = idsOf bs) : countB b bs' = countB b bs := by
  unfold countB
  rw [h]

theorem applyOpRfc_count_le {b : Str} {op : PatchOpV1} {bs bs' : List Block}
    (hins : (op.op = OpType.insertAfter ∨ op.op = OpType.insertBefore) →
      ¬ op.new_block_id = some b)
    (h : applyOpRfc bs op = .ok bs') : countB b bs' ≤ countB b bs := by
  unfold applyOpRfc at h
  split at h
  · exact le_of_eq (count_of_ids_eq (substrArm_ids h))
  · exact le_of_eq (count_of_ids_eq (substrArm_ids h))
  · rename_i hop
    split at h
    · rename_i nid kc t hnid hkc ht
      have hne : ¬ (Block.mk nid kc [] t).id = b := by
        intro hx
        have hx2 : nid = b := hx
        exact hins (Or.inl hop) (by rw [hnid, hx2])
      exact le_of_eq (insertAfterFirst_count hne h)
    · exact Except.noConfusion h
  · rename_i hop
    split at h
    · rename_i nid kc t hnid hkc ht
      have hne : ¬ (Block.mk nid kc [] t).id = b := by
        intro hx
        have hx2 : nid = b := hx
        exact hins (Or.inr hop) (by rw [hnid, hx2])
      exact le_of_eq (insertBeforeFirst_count hne h)
    · exact Except.noConfusion h
  · split at h
    · exact Except.noConfusion h
    · refine le_of_eq (count_of_ids_eq (updFirst_ids ?_ h))
      intro blk b2 hf
      cases hf
      rfl
  · by_cases hbb : op.block_id = b
    · have := removeFirstBlock_count_eq hbb h
      omega
    · exact le_of_eq (removeFirstBlock_count_ne hbb h)
  · cases h
    exact le_refl _

theorem applyOpRfc_delete_zero {b : Str} {op : PatchOpV1} {bs bs' : List Block}
    (hop : op.op = OpType.deleteBlock) (hbid : op.block_id = b)
    (h : applyOpRfc bs op = .ok bs') (hle : countB b bs ≤ 1) : countB b bs' = 0 := by
  unfold applyOpRfc at h
  rw [hop] at h
  have := removeFirstBlock_count_eq hbid h
  omega

theorem fold_count_zero {b : Str} :
    ∀ (ops : List PatchOpV1) (bs bs' : List Block),
      (∀ op' ∈ ops, (op'.op = OpType.insertAfter ∨ op'.op = OpType.insertBefore) →
        ¬ op'.new_block_id = some b) →
      countB b bs = 0 → applyOpsWith applyOpRfc bs ops = .ok bs' → countB b bs' = 0 := by
  intro ops
  induction ops with
  | nil =>
    intro bs bs' _ h0 h
    cases h
    exact h0
  | cons op0 rest ih =>
    intro bs bs' hall h0 h
    unfold applyOpsWith at h
    split at h
    · exact Except.noConfusion h
    · rename_i bs1 h1
      have hle := applyOpRfc_count_le (hall op0 (List.mem_cons_self _ _)) h1
      exact ih bs1 bs' (fun o hm => hall o (List.mem_cons_of_mem _ hm)) (by omega) h

theorem fold_delete_zero {b : Str} :
    ∀ (ops : List PatchOpV1) (bs bs' : List Block),
      (∀ op' ∈ ops, (op'.op = OpType.insertAfter ∨ op'.op = OpType.insertBefore) →
        ¬ op'.new_block_id = some b) →
      countB b bs ≤ 1 →
      (∃ op' ∈ ops, op'.op = OpType.deleteBlock ∧ op'.block_id = b) →
      applyOpsWith applyOpRfc bs ops = .ok bs' → countB b bs' = 0 := by
  intro ops
  induction ops with
  | nil =>
    intro bs bs' _ _ hex _
    obtain ⟨o, hm, _⟩ := hex
    exact absurd hm (List.not_mem_nil o)
  | cons op0 rest ih =>
    intro bs bs' hall hle hex h
    unfold applyOpsWith at h
    split at h
    · exact Except.noConfusion h
    · rename_i bs1 h1
      by_cases hd : op0.op = OpType.deleteBlock ∧ op0.block_id = b
      · have h0 := applyOpRfc_delete_zero hd.1 hd.2 h1 hle
        exact fold_count_zero rest bs1 bs'
          (fun o hm => hall o (List.mem_cons_of_mem _ hm)) h0 h
      · obtain ⟨o, hm, ho1, ho2⟩ := hex
        have hmr : o ∈ rest := by
          rcases List.mem_cons.mp hm with he | hr
          · exact absurd ⟨he ▸ ho1, he ▸ ho2⟩ hd
          · exact hr
        have hle1 := applyOpRfc_count_le (hall op0 (List.mem_cons_self _ _)) h1
        exact ih bs1 bs' (fun o2 hm2 => hall o2 (List.mem_cons_of_mem _ hm2)) (by omega)
          ⟨o, hmr, ho1, ho2⟩ h

theorem validate_ok_checkOps {D : Document} {P : PatchV1}
    (hv : validate_patch D P = .ok ()) :
    checkOps D ValidateOptions.default 0 P.ops = none := by
  unfold validate_patch validate_patch_with_options at hv
  cases hres : validate_patch_with_diagnostics D P ValidateOptions.default with
  | error e =>
    rw [hres] at hv
    exact absurd hv (by simp [Except.mapError])
  | ok u =>
    unfold validate_patch_with_diagnostics validateWithOrder at hres
    repeat' split at hres
    all_goals
      first
      | exact Except.noConfusion hres
      | assumption

theorem checkOps_none_mem {doc : Document} {opts : ValidateOptions} {op : PatchOpV1} :
    ∀ {i : Nat} {ops : List PatchOpV1}, checkOps doc opts i ops = none → op ∈ ops →
      ∃ j, checkOp doc opts j op = none := by
  intro i ops
  induction ops generalizing i with
  | nil =>
    intro _ hm
    exact absurd hm (List.not_mem_nil op)
  | cons op0 rest ih =>
    intro h hm
    unfold checkOps at h
    split at h
    · exact Option.noConfusion h
    · rename_i hchk
      rcases List.mem_cons.mp hm with he | hr
      · exact ⟨i, he ▸ hchk⟩
      · exact ih h hr

theorem checkOp_none_find {doc : Document} {opts : ValidateOptions} {i : Nat}
    {op : PatchOpV1} (h : checkOp doc opts i op = none) :
    ∃ blk, findBlock doc.blocks op.block_id = some blk := by
  unfold checkOp at h
  split at h
  · exact Option.noConfusion h
  · rename_i blk hfind
    exact ⟨blk, hfind⟩

theorem checkOp_none_insert {doc : Document} {opts : ValidateOptions} {i : Nat}
    {op : PatchOpV1} (h : checkOp doc opts i op = none)
    (hins : op.op = OpType.insertAfter ∨ op.op = OpType.insertBefore) :
    ∃ nid, op.new_block_id = some nid ∧
      doc.blocks.any (fun bk => decide (bk.id = nid)) = false := by
  unfold checkOp at h
  split at h
  · exact Option.noConfusion h
  · split at h
    · exact Option.noConfusion h
    · unfold checkOpKind at h
      rcases hins with hop | hop <;> rw [hop] at h <;> repeat' split at h
      all_goals
        first
        | contradiction
        | exact Option.noConfusion h
        | exact ⟨_, by assumption, Bool.eq_false_iff.mpr (by assumption)⟩

theorem findBlock_mem {bs : List Block} {bid : Str} {blk : Block}
    (h : findBlock bs bid = some blk) : bid ∈ idsOf bs := by
  unfold findBlock at h
  have hmem := List.mem_of_find?_eq_some h
  have hpred := List.find?_some h
  rw [decide_eq_true_eq] at hpred
  exact List.mem_map.mpr ⟨blk, hmem, hpred⟩

theorem any_id_false {bs : List Block} {nid : Str}
    (h : bs.any (fun bk => decide (bk.id = nid)) = false) : ¬ nid ∈ idsOf bs := by
  intro hm
  obtain ⟨bk, hbk, hid⟩ := List.mem_map.mp hm
  have := List.any_eq_false.mp h bk hbk
  rw [decide_eq_true_eq] at this
  exact this hid

theorem normalize_blocks {d d1 : Document} (h : normalize_hash_algorithm d = .ok d1) :
    d1.blocks = d.blocks := by
  unfold normalize_hash_algorithm at h
  dsimp only at h
  repeat' split at h
  all_goals
    first
    | exact Except.noConfusion h
    | (cases h; rfl)

theorem recompute_ids {d out : Document} (h : try_recompute_hashes d = .ok out) :
    idsOf out.blocks = idsOf d.blocks := by
  cases hn : normalize_hash_algorithm d with
  | error e =>
    unfold try_recompute_hashes at h
    rw [hn] at h
    exact Except.noConfusion h
  | ok d1 =>
    unfold try_recompute_hashes at h
    rw [hn] at h
    dsimp only at h
    cases h
    have hb := normalize_blocks hn
    simp only [idsOf, List.map_map, hb]
    apply List.map_congr_left
    intro x _
    rfl

theorem count_le_one_of_nodup {b : Str} : ∀ {l : List Str}, l.Nodup → l.count b ≤ 1 := by
  intro l
  induction l with
  | nil =>
    intro _
    simp
  | cons a t ih =>
    intro hl
    have hn := List.nodup_cons.mp hl
    rw [List.count_cons]
    by_cases hab : a = b
    · have hbt : ¬ b ∈ t := by
        rw [← hab]
        exact hn.1
      have h0 : t.count b = 0 := List.count_eq_zero.mpr hbt
      simp [h0, hab]
    · have hf : (a == b) = false := by simp [hab]
      simp only [hf, if_false, Nat.add_zero, ite_false, Bool.false_eq_true]
      have := ih hn.2
      omega

/-- Claim C2: if the validator accepts a patch containing a `delete_block`
operation anchored at block id `b` against a document whose block ids are
unique (the data-model invariant), then a successful application (which runs
that validator first) returns a document whose ordered block list contains
no block with id `b`: validated inserts cannot reuse an existing id, so once
the anchor is removed nothing re-introduces `b`. -/
theorem claim_C2 (D : Document) (P : PatchV1) (out : Document) (b : Str) (op : PatchOpV1)
    (hnd : (idsOf D.blocks).Nodup) (hmem : op ∈ P.ops)
    (hdb : op.op = OpType.deleteBlock) (hbid : op.block_id = b)
    (hok : apply_patch_against_document_rfc D P = .ok out) :
    ¬ b ∈ idsOf out.blocks := by
  unfold apply_patch_against_document_rfc at hok
  split at hok
  · exact Except.noConfusion hok
  · rename_i u hval
    split at hok
    · exact Except.noConfusion hok
    · rename_i bs hfold
      have hval' : validate_patch D P = .ok () := by
        cases u
        exact hval
      have hco := validate_ok_checkOps hval'
      have hbin : b ∈ idsOf D.blocks := by
        obtain ⟨j, hchk⟩ := checkOps_none_mem hco hmem
        obtain ⟨blk, hfind⟩ := checkOp_none_find hchk
        exact hbid ▸ findBlock_mem hfind
      have hfacts : ∀ op' ∈ P.ops,
          (op'.op = OpType.insertAfter ∨ op'.op = OpType.insertBefore) →
          ¬ op'.new_block_id = some b := by
        intro op' hm' hins hcon
        obtain ⟨j, hchk⟩ := checkOps_none_mem hco hm'
        obtain ⟨nid, hnid, hany⟩ := checkOp_none_insert hchk hins
        rw [hnid] at hcon
        injection hcon with hnb
        exact any_id_false (hnb ▸ hany) hbin
      have hle : countB b D.blocks ≤ 1 := count_le_one_of_nodup hnd
      have hzero := fold_delete_zero P.ops D.blocks bs hfacts hle ⟨op, hmem, hdb, hbid⟩ hfold
      have hids := recompute_ids hok
      unfold countB at hzero
      rw [hids]
      exact List.count_eq_zero.mp hzero

/-- Witness for C2: a concrete document with two blocks and a single
`delete_block` on `b1`; application succeeds and `b1` is gone. -/
theorem claim_C2_witness : ¬ ("b1").data ∈ idsOf
    ((apply_patch_against_document_rfc c6doc c2patch).toOption.getD c6doc).blocks := by
  have happ : apply_patch_against_document_rfc c6doc c2patch =
      .ok ((apply_patch_against_document_rfc c6doc c2patch).toOption.getD c6doc) := by decide
  exact claim_C2 c6doc c2patch _ (("b1").data)
    { op := OpType.deleteBlock, block_id := ("b1").data }
    (by decide) (by decide) rfl rfl happ


end BDIR
